import Mathlib

/-!
Verification of the SMS dashboard dispatch engine (`src/app.py`).

The development shallowly embeds the persistent data model (contacts,
campaigns, messages), the dispatch tick `process_queue_tick`, the daily-cap
counter `count_sent_today`, the campaign-completion scan, and the campaign
activation handler `campaigns_start`.

Modelling conventions:
* SQL text timestamps become natural numbers (seconds); `date(t)` becomes
  the day number `t / 86400`.
* The SQLite rows become Lean structures; `INTEGER` consent flags (always
  written as 0/1 by the application) become `Bool`.
* The Africa's Talking provider call is an explicit function parameter
  returning `Except error providerId`; the `try/except` around it in the
  source is modelled by casing on that result.
* Every `conn.execute(...)` write in the tick may raise in Python (the
  source wraps only the provider call and the sent-update in `try`), so the
  tick is additionally parametrised by a fault oracle saying which
  per-message store operation raises; `noFaults` recovers the fault-free
  run.  A raising operation commits nothing; a raised exception propagates
  out of the tick exactly where the source would let it escape.
* Provider invocations are accumulated in an observation log so that
  "no provider call was made" is expressible.
-/

/-- Message lifecycle states, exactly the strings used in the `messages.status`
column: queued|sending|sent|failed|skipped. -/
inductive MsgStatus
  | queued
  | sending
  | sent
  | failed
  | skipped
deriving DecidableEq, Repr

/-- A row of the `contacts` table. -/
structure Contact where
  id : Nat
  name : String
  phone : String
  consented : Bool
  opted_out : Bool
  tags : String
deriving DecidableEq, Repr

/-- A row of the `campaigns` table. -/
structure Campaign where
  id : Nat
  name : String
  message_template : String
  target_tag : String
  created_at : Nat
  started_at : Option Nat
  completed_at : Option Nat
deriving DecidableEq, Repr

/-- A row of the `messages` table. -/
structure Message where
  id : Nat
  campaign_id : Nat
  contact_id : Nat
  to_phone : String
  body : String
  status : MsgStatus
  provider_id : Option String
  error : Option String
  created_at : Nat
  sent_at : Option Nat
deriving DecidableEq, Repr

/-- The persistent store.  `nextMsgId` and `nextCampaignId` model the
AUTOINCREMENT counters of the corresponding tables. -/
structure State where
  contacts : List Contact
  campaigns : List Campaign
  messages : List Message
  nextMsgId : Nat
  nextCampaignId : Nat
deriving DecidableEq, Repr

/-- `date(t)` on integer-second timestamps: the calendar day number. -/
def dateOfTime (t : Nat) : Nat := t / 86400

/-- `SELECT * FROM contacts WHERE id=?` (ids are a primary key). -/
def lookupContact (cs : List Contact) (cid : Nat) : Option Contact :=
  cs.find? fun c => c.id == cid

/-- `UPDATE messages SET ... WHERE id=?`: apply `f` to every row whose id
matches. -/
def updMsg (msgs : List Message) (mid : Nat) (f : Message → Message) : List Message :=
  msgs.map fun m => if m.id = mid then f m else m

/-- Row update of `UPDATE messages SET status='skipped', error=? WHERE id=?`. -/
def skipMark (reason : String) (m : Message) : Message :=
  { m with status := .skipped, error := some reason }

/-- Row update of `UPDATE messages SET status='sending' WHERE id=?`. -/
def sendingMark (m : Message) : Message :=
  { m with status := .sending }

/-- Row update of
`UPDATE messages SET status='sent', provider_id=?, sent_at=datetime('now') WHERE id=?`. -/
def sentMark (pid : String) (now : Nat) (m : Message) : Message :=
  { m with status := .sent, provider_id := some pid, sent_at := some now }

/-- Row update of `UPDATE messages SET status='failed', error=? WHERE id=?`. -/
def failMark (e : String) (m : Message) : Message :=
  { m with status := .failed, error := some e }

/-- The Boolean row predicate of the `count_sent_today` query:
`contact_id=? AND status='sent' AND date(sent_at)=date('now')`. -/
def sentTodayPred (cid : Nat) (now : Nat) (m : Message) : Bool :=
  m.contact_id == cid &&
    (m.status == .sent) &&
    (match m.sent_at with
     | some t => dateOfTime t == dateOfTime now
     | none => false)

/-- `count_sent_today(conn, contact_id)` from the source: the number of this
contact's messages with status `sent` whose `sent_at` falls on the current
calendar day. -/
def count_sent_today (msgs : List Message) (cid : Nat) (now : Nat) : Nat :=
  msgs.countP (sentTodayPred cid now)

/-- Day-generalised version of the `count_sent_today` row predicate, used to
state the cap invariant for an arbitrary calendar day `d`. -/
def sentOnDayPred (cid : Nat) (d : Nat) (m : Message) : Bool :=
  m.contact_id == cid &&
    (m.status == .sent) &&
    (match m.sent_at with
     | some t => dateOfTime t == d
     | none => false)

/-- Number of `sent` messages of contact `cid` whose sent-time falls on
calendar day `d`. -/
def countSentOnDay (msgs : List Message) (cid : Nat) (d : Nat) : Nat :=
  msgs.countP (sentOnDayPred cid d)

/-- The joined row produced by the tick's batch query: the message columns
plus the owning contact's `consented` and `opted_out` flags. -/
structure SelRow where
  msg : Message
  consented : Bool
  opted_out : Bool
deriving DecidableEq, Repr

/-- The per-message store operations of the tick that the source executes
outside (or inside) its `try` block; the fault oracle is indexed by these. -/
inductive DbStep
  | skipConsentWrite
  | capCountRead
  | skipCapWrite
  | sendingWrite
  | sentWrite
  | failedWrite
deriving DecidableEq, Repr

/-- Fault oracle of the fault-free run: no store operation raises. -/
def noFaults : Nat → DbStep → Bool := fun _ _ => false

/-- Error text standing for a raised storage exception. -/
def dbError : String := "database error"

/-- A logged provider invocation: message id, destination phone, body. -/
abbrev ProviderCall := Nat × String × String

/-- Result of running (part of) a tick's message loop: the committed
`messages` table, the provider invocations made, and the exception (if any)
that propagated out of the loop. -/
structure BatchOut where
  msgs : List Message
  calls : List ProviderCall
  err : Option String
deriving DecidableEq, Repr

/-- The body of the tick's `for m in rows:` loop for one selected row,
translated clause by clause from `process_queue_tick`:
consent gate, daily-cap gate, mark `sending`, provider call, outcome write.
Only the provider call and the sent-update sit inside the source's `try`,
so only their exceptions are converted to a `failed` outcome; every other
raising store operation propagates. -/
def processOne (fault : Nat → DbStep → Bool)
    (provider : String → String → Except String String)
    (now cap : Nat) (r : SelRow) (msgs : List Message) : BatchOut :=
  if r.consented = false ∨ r.opted_out = true then
    if fault r.msg.id .skipConsentWrite then ⟨msgs, [], some dbError⟩
    else ⟨updMsg msgs r.msg.id (skipMark "no consent or opted out"), [], none⟩
  else if fault r.msg.id .capCountRead then ⟨msgs, [], some dbError⟩
  else if cap ≤ count_sent_today msgs r.msg.contact_id now then
    if fault r.msg.id .skipCapWrite then ⟨msgs, [], some dbError⟩
    else ⟨updMsg msgs r.msg.id (skipMark "daily cap reached"), [], none⟩
  else if fault r.msg.id .sendingWrite then ⟨msgs, [], some dbError⟩
  else
    let msgs1 := updMsg msgs r.msg.id sendingMark
    match provider r.msg.to_phone r.msg.body with
    | .ok pid =>
      if fault r.msg.id .sentWrite then
        if fault r.msg.id .failedWrite then
          ⟨msgs1, [(r.msg.id, r.msg.to_phone, r.msg.body)], some dbError⟩
        else ⟨updMsg msgs1 r.msg.id (failMark dbError),
              [(r.msg.id, r.msg.to_phone, r.msg.body)], none⟩
      else ⟨updMsg msgs1 r.msg.id (sentMark pid now),
            [(r.msg.id, r.msg.to_phone, r.msg.body)], none⟩
    | .error e =>
      if fault r.msg.id .failedWrite then
        ⟨msgs1, [(r.msg.id, r.msg.to_phone, r.msg.body)], some dbError⟩
      else ⟨updMsg msgs1 r.msg.id (failMark e),
            [(r.msg.id, r.msg.to_phone, r.msg.body)], none⟩

/-- The tick's message loop over the selected batch, in selection order.
A propagated exception stops the loop (later rows are not processed), but
everything committed so far stays committed. -/
def runBatch (fault : Nat → DbStep → Bool)
    (provider : String → String → Except String String)
    (now cap : Nat) : List SelRow → List Message → BatchOut
  | [], msgs => ⟨msgs, [], none⟩
  | r :: rest, msgs =>
    match processOne fault provider now cap r msgs with
    | ⟨msgs1, calls1, none⟩ =>
      let out := runBatch fault provider now cap rest msgs1
      ⟨out.msgs, calls1 ++ out.calls, out.err⟩
    | ⟨msgs1, calls1, some e⟩ => ⟨msgs1, calls1, some e⟩

/-- The tick's batch query:
`SELECT m.*, c.consented, c.opted_out FROM messages m JOIN contacts c ON
c.id=m.contact_id WHERE m.status='queued' ORDER BY m.created_at ASC LIMIT ?`.
The inner join drops queued messages without a contact row. -/
def joinedQueued (s : State) : List SelRow :=
  s.messages.filterMap fun m =>
    if m.status = .queued then
      (lookupContact s.contacts m.contact_id).map fun c =>
        ⟨m, c.consented, c.opted_out⟩
    else none

/-- Creation-time order on joined rows (`ORDER BY m.created_at ASC`). -/
def createdLe (a b : SelRow) : Prop := a.msg.created_at ≤ b.msg.created_at

instance : DecidableRel createdLe := fun a b =>
  inferInstanceAs (Decidable (a.msg.created_at ≤ b.msg.created_at))

instance : IsTotal SelRow createdLe :=
  ⟨fun a b => Nat.le_total a.msg.created_at b.msg.created_at⟩

instance : IsTrans SelRow createdLe :=
  ⟨fun _ _ _ hab hbc => Nat.le_trans hab hbc⟩

/-- The selected batch: queued rows joined with their contact, ordered by
creation time ascending, limited to `limit` rows. -/
def selectBatch (s : State) (limit : Nat) : List SelRow :=
  ((joinedQueued s).insertionSort createdLe).take limit

/-- Row predicate of the completion scan's remaining-work query:
`campaign_id=? AND status IN ('queued','sending')`. -/
def queuedOrSendingPred (cid : Nat) (m : Message) : Bool :=
  m.campaign_id == cid && (m.status == .queued || m.status == .sending)

/-- Number of messages of campaign `cid` still in `queued` or `sending`. -/
def countQueuedSending (msgs : List Message) (cid : Nat) : Nat :=
  msgs.countP (queuedOrSendingPred cid)

/-- The campaign-completion scan at the end of `process_queue_tick`:
every campaign with `started_at` set and `completed_at` unset whose
remaining-work count is zero gets `completed_at=datetime('now')`. -/
def completionScan (camps : List Campaign) (msgs : List Message) (now : Nat) :
    List Campaign :=
  camps.map fun c =>
    if c.started_at ≠ none ∧ c.completed_at = none ∧ countQueuedSending msgs c.id = 0
    then { c with completed_at := some now }
    else c

/-- Result of one invocation of `process_queue_tick`. -/
structure TickResult where
  state : State
  calls : List ProviderCall
  err : Option String
deriving Repr

/-- One dispatch tick (`process_queue_tick`), parametrised by the store
fault oracle, the provider, the current time, the configured rate limit
(`SEND_PER_SECOND`) and daily cap (`MAX_DAILY_PER_CONTACT`).  If the
message loop propagates an exception the completion scan is not reached
(the worker loop catches the exception), but per-message commits made
before the exception persist. -/
def process_queue_tickF (fault : Nat → DbStep → Bool)
    (provider : String → String → Except String String)
    (now limit cap : Nat) (s : State) : TickResult :=
  let out := runBatch fault provider now cap (selectBatch s limit) s.messages
  match out.err with
  | some e => ⟨{ s with messages := out.msgs }, out.calls, some e⟩
  | none =>
    ⟨{ s with messages := out.msgs,
              campaigns := completionScan s.campaigns out.msgs now },
     out.calls, none⟩

/-- The fault-free dispatch tick. -/
def process_queue_tick (provider : String → String → Except String String)
    (now limit cap : Nat) (s : State) : TickResult :=
  process_queue_tickF noFaults provider now limit cap s

/-- ASCII lowering, character by character: models both SQLite `lower()`
and Python `str.lower()` on the ASCII tags/phones this application stores
(`Char.toLower` only lowers basic latin letters, like SQLite). -/
def lowerChars (l : List Char) : List Char := l.map Char.toLower

/-- SQLite `LIKE` on character lists: `%` matches any sequence, `_` any
single character, and literal characters compare ASCII-case-insensitively
(the SQLite default, no ESCAPE clause). -/
def likeMatch : List Char → List Char → Bool
  | [], [] => true
  | [], _ :: _ => false
  | p :: ps, s =>
    if p = '%' then
      (List.range (s.length + 1)).any fun n => likeMatch ps (s.drop n)
    else if p = '_' then
      match s with
      | [] => false
      | _ :: s' => likeMatch ps s'
    else
      match s with
      | [] => false
      | c :: s' => (p.toLower == c.toLower) && likeMatch ps s'

/-- The activation recipient filter's tag condition:
`(',' || lower(tags) || ',') LIKE '%,<lowered target tag>,%'`. -/
def tagMatches (tag tags : String) : Bool :=
  likeMatch ('%' :: ',' :: (lowerChars tag.data ++ [',', '%']))
    (',' :: (lowerChars tags.data ++ [',']))

/-- Python `str.strip()` (on the ASCII whitespace this application sees). -/
def strTrim (s : String) : String :=
  ⟨((s.data.dropWhile Char.isWhitespace).reverse.dropWhile Char.isWhitespace).reverse⟩

/-- `render_template(tpl, contact)` from the source: replace the three fixed
placeholder tokens by the contact's fields. -/
def render_template (tpl : String) (c : Contact) : String :=
  ((tpl.replace "\x7b\x7bname\x7d\x7d" c.name).replace
      "\x7b\x7bphone\x7d\x7d" c.phone).replace
    "\x7b\x7btags\x7d\x7d" c.tags

/-- Splitting a character list at commas, Python `"...".split(",")`:
always at least one (possibly empty) token. -/
def splitOnCommaL : List Char → List (List Char)
  | [] => [[]]
  | c :: rest =>
    if c = ',' then [] :: splitOnCommaL rest
    else
      match splitOnCommaL rest with
      | t :: ts => (c :: t) :: ts
      | [] => [[c]]

/-- Formalisation of the spec's words for recipient selection (claim C6):
the contact's comma-separated tag list contains the target tag as an exact,
case-insensitive token match.  This definition follows the specification
text, not the source, and is compared against the source's `tagMatches`. -/
def tokenMatchSpec (tag tags : String) : Bool :=
  (splitOnCommaL tags.data).any fun t => lowerChars t == lowerChars tag.data

/-- Recipient selection of `campaigns_start`: consented, non-opted-out
contacts, restricted by the LIKE tag condition when the trimmed target tag
is non-empty. -/
def selectRecipients (s : State) (camp : Campaign) : List Contact :=
  let tag := strTrim camp.target_tag
  if tag ≠ "" then
    s.contacts.filter fun c => c.consented && !c.opted_out && tagMatches tag c.tags
  else
    s.contacts.filter fun c => c.consented && !c.opted_out

/-- The queued message inserted for one recipient: rendered body plus the
opt-out footer with the per-contact unsubscribe link. -/
def mkQueuedMessage (cid mid : Nat) (tpl baseUrl : String) (now : Nat)
    (c : Contact) : Message :=
  { id := mid, campaign_id := cid, contact_id := c.id, to_phone := c.phone,
    body := strTrim (render_template tpl c) ++ "\nOpt out: " ++ baseUrl ++ "/u/" ++ c.phone,
    status := .queued, provider_id := none, error := none,
    created_at := now, sent_at := none }

/-- The activation insert loop: one queued message per recipient, with
consecutive AUTOINCREMENT ids starting at `nid`. -/
def enqueueAll (cid : Nat) (tpl baseUrl : String) (now : Nat) :
    List Contact → Nat → List Message
  | [], _ => []
  | c :: cs, nid =>
    mkQueuedMessage cid nid tpl baseUrl now c :: enqueueAll cid tpl baseUrl now cs (nid + 1)

/-- `campaigns_start(campaign_id)`: activation.  A missing campaign id
raises 404 before anything is written, so the state comes back unchanged;
otherwise `started_at` is overwritten unconditionally and one queued
message per selected recipient is inserted.  `baseUrl` is the configured
`PUBLIC_BASE_URL` plus `/u`. -/
def campaigns_start (baseUrl : String) (s : State) (cid : Nat) (now : Nat) :
    State × Except String Nat :=
  match s.campaigns.find? (fun c => c.id == cid) with
  | none => (s, .error "Campaign not found")
  | some camp =>
    let recips := selectRecipients s camp
    ({ s with
        campaigns := s.campaigns.map fun c =>
          if c.id = cid then { c with started_at := some now } else c,
        messages := s.messages ++
          enqueueAll cid camp.message_template baseUrl now recips s.nextMsgId,
        nextMsgId := s.nextMsgId + recips.length },
     .ok recips.length)

/-- `campaigns_create`: insert a fresh campaign with `started_at` and
`completed_at` both null. -/
def campaigns_create (s : State) (name tpl targetTag : String) (now : Nat) :
    State × Nat :=
  ({ s with
      campaigns := s.campaigns ++
        [{ id := s.nextCampaignId, name := strTrim name,
           message_template := strTrim tpl, target_tag := strTrim targetTag,
           created_at := now, started_at := none, completed_at := none }],
      nextCampaignId := s.nextCampaignId + 1 },
   s.nextCampaignId)

/-- Primary-key and AUTOINCREMENT discipline for the `messages` table. -/
def MsgIdsOk (s : State) : Prop :=
  (s.messages.map Message.id).Nodup ∧ ∀ m ∈ s.messages, m.id < s.nextMsgId

/-- Primary-key discipline for the `campaigns` table. -/
def CampIdsOk (s : State) : Prop :=
  (s.campaigns.map Campaign.id).Nodup

/-- The per-message field invariant of the data model: non-terminal rows
carry neither a provider reference nor an error; `sent` rows carry exactly
a provider reference (and a sent-time); `failed`/`skipped` rows carry
exactly an error. -/
def MsgInv (m : Message) : Prop :=
  match m.status with
  | .queued => m.provider_id = none ∧ m.error = none ∧ m.sent_at = none
  | .sending => m.provider_id = none ∧ m.error = none ∧ m.sent_at = none
  | .sent => m.provider_id.isSome ∧ m.error = none ∧ m.sent_at.isSome
  | .failed => m.error.isSome ∧ m.provider_id = none
  | .skipped => m.error.isSome ∧ m.provider_id = none

/-- The immutable message columns: everything the tick never writes. -/
def FrameOk (m m' : Message) : Prop :=
  m'.id = m.id ∧ m'.campaign_id = m.campaign_id ∧ m'.contact_id = m.contact_id ∧
    m'.to_phone = m.to_phone ∧ m'.body = m.body ∧ m'.created_at = m.created_at

/-- The possible net effects of one tick on one message row. -/
def ShapeOk (now : Nat) (m m' : Message) : Prop :=
  m' = m ∨
    (m'.status = .skipped ∧ m'.error.isSome ∧ m'.provider_id = m.provider_id ∧
      m'.sent_at = m.sent_at) ∨
    (m'.status = .sending ∧ m'.provider_id = m.provider_id ∧ m'.error = m.error ∧
      m'.sent_at = m.sent_at) ∨
    (m'.status = .sent ∧ m'.provider_id.isSome ∧ m'.sent_at = some now ∧
      m'.error = m.error) ∨
    (m'.status = .failed ∧ m'.error.isSome ∧ m'.provider_id = m.provider_id ∧
      m'.sent_at = m.sent_at)

/-- The message ids a batch writes to. -/
def touched (rs : List SelRow) : List Nat := rs.map fun r => r.msg.id

/-- The daily-cap invariant: no contact has more than `cap` messages sent
on any single calendar day. -/
def CapOk (cap : Nat) (msgs : List Message) : Prop :=
  ∀ cid d, countSentOnDay msgs cid d ≤ cap

/-- Literal head match: `p` matches the beginning of `s` character by
character, ASCII-case-insensitively (the literal-character clause of
SQLite `LIKE`). -/
def litLead : List Char → List Char → Bool
  | [], _ => true
  | _ :: _, [] => false
  | p :: ps, c :: s => (p.toLower == c.toLower) && litLead ps s

/-- A provider stub that accepts every message. -/
def providerOk : String → String → Except String String :=
  fun _ _ => .ok "ATXid_1"

/-- A provider stub that rejects every message. -/
def providerFail : String → String → Except String String :=
  fun _ _ => .error "AT send failed: InsufficientBalance (405)"

/-- Concrete fixture: a consented contact. -/
def contactA : Contact :=
  { id := 1, name := "Alice", phone := "+15550001", consented := true,
    opted_out := false, tags := "vip,gold" }

/-- Concrete fixture: a contact without consent. -/
def contactB : Contact :=
  { id := 2, name := "Bob", phone := "+15550002", consented := false,
    opted_out := false, tags := "gold" }

/-- Concrete fixture: a queued message for `contactA`. -/
def msgQ1 : Message :=
  { id := 1, campaign_id := 1, contact_id := 1, to_phone := "+15550001",
    body := "hello", status := .queued, provider_id := none, error := none,
    created_at := 10, sent_at := none }

/-- Concrete fixture: a second queued message, for `contactB`. -/
def msgQ2 : Message :=
  { id := 2, campaign_id := 1, contact_id := 2, to_phone := "+15550002",
    body := "hello", status := .queued, provider_id := none, error := none,
    created_at := 11, sent_at := none }

/-- Concrete fixture: a queued message for `contactA`, younger than `msgQ1`. -/
def msgQ3 : Message :=
  { id := 3, campaign_id := 1, contact_id := 1, to_phone := "+15550001",
    body := "hello again", status := .queued, provider_id := none, error := none,
    created_at := 12, sent_at := none }

/-- Concrete fixture: a message stuck in `sending`. -/
def msgSending : Message :=
  { id := 4, campaign_id := 1, contact_id := 1, to_phone := "+15550001",
    body := "stuck", status := .sending, provider_id := none, error := none,
    created_at := 5, sent_at := none }

/-- Concrete fixture: an already started campaign. -/
def campA : Campaign :=
  { id := 1, name := "launch", message_template := "hello", target_tag := "",
    created_at := 0, started_at := some 3, completed_at := none }

/-- Concrete fixture state with two queued messages (one consented contact,
one non-consented contact). -/
def stateA : State :=
  { contacts := [contactA, contactB], campaigns := [campA],
    messages := [msgQ1, msgQ2], nextMsgId := 5, nextCampaignId := 2 }

/-- Concrete fixture state with two queued messages for the same consented
contact. -/
def stateB : State :=
  { contacts := [contactA], campaigns := [campA],
    messages := [msgQ1, msgQ3], nextMsgId := 5, nextCampaignId := 2 }

/-- A fault oracle that raises exactly at the daily-cap count query of
message 1 (part of that message's eligibility evaluation). -/
def faultCap1 : Nat → DbStep → Bool :=
  fun i st => i == 1 && st == .capCountRead

/-- Concrete fixture: a contact whose tag list is the two tags `a` and `b`. -/
def contactAB : Contact :=
  { id := 7, name := "Eve", phone := "+15550007", consented := true,
    opted_out := false, tags := "a,b" }

/-- Concrete fixture: a campaign whose target tag is the string `a,b`. -/
def campAB : Campaign :=
  { id := 3, name := "odd", message_template := "hi", target_tag := "a,b",
    created_at := 0, started_at := none, completed_at := none }

/-- Concrete fixture state for the tag-matching counterexample. -/
def stateAB : State :=
  { contacts := [contactAB], campaigns := [campAB],
    messages := [], nextMsgId := 1, nextCampaignId := 4 }

/-- Concrete fixture: an already `sent` message. -/
def msgSent : Message :=
  { id := 6, campaign_id := 1, contact_id := 1, to_phone := "+15550001",
    body := "old", status := .sent, provider_id := some "ATXid_0", error := none,
    created_at := 1, sent_at := some 2 }

/-- Concrete fixture: a `failed` message. -/
def msgFailed : Message :=
  { id := 7, campaign_id := 1, contact_id := 1, to_phone := "+15550001",
    body := "old", status := .failed, provider_id := none,
    error := some "AT send failed: InvalidPhoneNumber (403)",
    created_at := 1, sent_at := none }

/-- Concrete fixture: a `skipped` message. -/
def msgSkipped : Message :=
  { id := 8, campaign_id := 1, contact_id := 1, to_phone := "+15550001",
    body := "old", status := .skipped, provider_id := none,
    error := some "no consent or opted out", created_at := 1, sent_at := none }

/-- Concrete fixture state containing one message in every status. -/
def stateC : State :=
  { contacts := [contactA], campaigns := [campA],
    messages := [msgQ1, msgSent, msgFailed, msgSkipped, msgSending],
    nextMsgId := 10, nextCampaignId := 2 }

/-- Concrete fixture: a campaign targeting the tag `vip`. -/
def campVip : Campaign :=
  { id := 1, name := "vip push", message_template := "hello", target_tag := "vip",
    created_at := 0, started_at := none, completed_at := none }

/-- Concrete fixture state for tag-based recipient selection: one contact
tagged `vip,gold`, one tagged `gold`. -/
def stateVip : State :=
  { contacts := [contactA, { contactB with consented := true }],
    campaigns := [campVip], messages := [], nextMsgId := 1, nextCampaignId := 2 }

theorem count_sent_today_eq (msgs : List Message) (cid now : Nat) :
    count_sent_today msgs cid now = countSentOnDay msgs cid (dateOfTime now) := rfl

theorem sentOnDayPred_skipMark (cid d : Nat) (reason : String) (m : Message) :
    sentOnDayPred cid d (skipMark reason m) = false := by
  simp [sentOnDayPred, skipMark]

theorem sentOnDayPred_sendingMark (cid d : Nat) (m : Message) :
    sentOnDayPred cid d (sendingMark m) = false := by
  simp [sentOnDayPred, sendingMark]

theorem sentOnDayPred_failMark (cid d : Nat) (e : String) (m : Message) :
    sentOnDayPred cid d (failMark e m) = false := by
  simp [sentOnDayPred, failMark]

theorem countSentOnDay_updMsg_le (msgs : List Message) (mid : Nat)
    (f : Message → Message) (cid d : Nat)
    (hf : ∀ m, sentOnDayPred cid d (f m) = false) :
    countSentOnDay (updMsg msgs mid f) cid d ≤ countSentOnDay msgs cid d := by
  unfold countSentOnDay updMsg
  rw [List.countP_map]
  apply List.countP_mono_left
  intro m _ h
  by_cases hid : m.id = mid
  · simp [Function.comp, hid, hf] at h
  · simpa [Function.comp, hid] using h

theorem countP_map_le_add {α : Type} (p q : α → Bool) (f : α → α) (l : List α)
    (h : ∀ a ∈ l, p (f a) = true → p a = true ∨ q a = true) :
    (l.map f).countP p ≤ l.countP p + l.countP q := by
  induction l with
  | nil => simp
  | cons a l ih =>
    have ih' := ih fun x hx => h x (List.mem_cons_of_mem _ hx)
    simp only [List.map_cons, List.countP_cons]
    by_cases hpa : p (f a) = true
    · rcases h a (List.mem_cons_self a l) hpa with hq | hq
      · simp only [hpa, hq, if_true]
        omega
      · simp only [hpa, hq, if_true]
        split <;> omega
    · rw [if_neg hpa]
      split <;> split <;> omega

theorem countSentOnDay_updMsg_sent_le (msgs : List Message) (mid : Nat)
    (pid : String) (now cid d : Nat) :
    countSentOnDay (updMsg msgs mid (sentMark pid now)) cid d ≤
      countSentOnDay msgs cid d +
        msgs.countP fun m =>
          m.id == mid && m.contact_id == cid && (dateOfTime now == d) := by
  unfold countSentOnDay updMsg
  apply countP_map_le_add
  intro m _ hp
  by_cases hid : m.id = mid
  · right
    rw [if_pos hid] at hp
    simp only [sentOnDayPred, sentMark] at hp
    simp only [Bool.and_eq_true, beq_iff_eq] at hp ⊢
    refine ⟨⟨hid, ?_⟩, ?_⟩
    · exact hp.1.1
    · simpa using hp.2
  · left
    simpa [hid] using hp

theorem countP_eq_zero_of_all {p : Message → Bool} {msgs : List Message}
    (h : ∀ m ∈ msgs, p m = false) : msgs.countP p = 0 := by
  rw [List.countP_eq_zero]
  intro m hm
  simp [h m hm]

theorem countP_id_le_one (msgs : List Message) (mid : Nat)
    (h : (msgs.map Message.id).Nodup) :
    (msgs.countP fun m => m.id == mid) ≤ 1 := by
  induction msgs with
  | nil => simp
  | cons m ms ih =>
    simp only [List.map_cons, List.nodup_cons] at h
    by_cases hm : m.id = mid
    · have hz : (ms.countP fun m => m.id == mid) = 0 := by
        apply countP_eq_zero_of_all
        intro x hx
        have : x.id ≠ m.id := fun he => h.1 (he ▸ List.mem_map_of_mem Message.id hx)
        simp [hm ▸ this]
      simp [List.countP_cons, hm, hz]
    · have hfalse : (m.id == mid) = false := by simpa using hm
      simp [List.countP_cons, hfalse]
      exact ih h.2

theorem filterMap_map_sublist {α β γ : Type} (f : α → Option β) (g : β → γ)
    (h : α → γ) (hf : ∀ a b, f a = some b → g b = h a) :
    ∀ l : List α, List.Sublist ((l.filterMap f).map g) (l.map h) := by
  intro l
  induction l with
  | nil => simp
  | cons a l ih =>
    cases hfa : f a with
    | none =>
      rw [List.filterMap_cons_none hfa, List.map_cons]
      exact ih.cons _
    | some b =>
      rw [List.filterMap_cons_some hfa, List.map_cons, List.map_cons, hf a b hfa]
      exact ih.cons₂ _

theorem joinedQueued_mem {s : State} {r : SelRow} (hr : r ∈ joinedQueued s) :
    r.msg ∈ s.messages ∧ r.msg.status = .queued ∧
      ∃ c, lookupContact s.contacts r.msg.contact_id = some c ∧
        r.consented = c.consented ∧ r.opted_out = c.opted_out := by
  unfold joinedQueued at hr
  rw [List.mem_filterMap] at hr
  obtain ⟨m, hm, hfm⟩ := hr
  by_cases hq : m.status = .queued
  · rw [if_pos hq] at hfm
    rw [Option.map_eq_some'] at hfm
    obtain ⟨c, hc, hrc⟩ := hfm
    subst hrc
    exact ⟨hm, hq, c, hc, rfl, rfl⟩
  · rw [if_neg hq] at hfm
    exact absurd hfm (by simp)

theorem selectBatch_mem {s : State} {limit : Nat} {r : SelRow}
    (hr : r ∈ selectBatch s limit) :
    r.msg ∈ s.messages ∧ r.msg.status = .queued ∧
      ∃ c, lookupContact s.contacts r.msg.contact_id = some c ∧
        r.consented = c.consented ∧ r.opted_out = c.opted_out := by
  unfold selectBatch at hr
  exact joinedQueued_mem ((List.mem_insertionSort createdLe).1 (List.mem_of_mem_take hr))

theorem selectBatch_length_le (s : State) (limit : Nat) :
    (selectBatch s limit).length ≤ limit := by
  unfold selectBatch
  exact List.length_take_le ..

theorem selectBatch_sorted (s : State) (limit : Nat) :
    (selectBatch s limit).Pairwise createdLe :=
  List.Pairwise.sublist (List.take_sublist _ _) (List.sorted_insertionSort createdLe _)

theorem joinedQueued_ids_sublist (s : State) :
    List.Sublist ((joinedQueued s).map fun r => r.msg.id) (s.messages.map Message.id) := by
  unfold joinedQueued
  apply filterMap_map_sublist
  intro m r hfm
  by_cases hq : m.status = .queued
  · rw [if_pos hq, Option.map_eq_some'] at hfm
    obtain ⟨c, _, hrc⟩ := hfm
    rw [← hrc]
  · rw [if_neg hq] at hfm
    exact absurd hfm (by simp)

theorem selectBatch_touched_nodup {s : State} (limit : Nat)
    (h : (s.messages.map Message.id).Nodup) :
    (touched (selectBatch s limit)).Nodup := by
  unfold touched selectBatch
  have hjoined : ((joinedQueued s).map fun r => r.msg.id).Nodup :=
    (joinedQueued_ids_sublist s).nodup h
  have hperm : List.Perm (((joinedQueued s).insertionSort createdLe).map fun r => r.msg.id)
      ((joinedQueued s).map fun r => r.msg.id) :=
    (List.perm_insertionSort createdLe _).map _
  have h2 : List.Sublist
      ((List.take limit ((joinedQueued s).insertionSort createdLe)).map fun r => r.msg.id)
      (((joinedQueued s).insertionSort createdLe).map fun r => r.msg.id) :=
    (List.take_sublist _ _).map _
  exact h2.nodup (hperm.symm.nodup hjoined)

theorem msg_id_inj {msgs : List Message} (h : (msgs.map Message.id).Nodup)
    {m m' : Message} (hm : m ∈ msgs) (hm' : m' ∈ msgs) (hid : m.id = m'.id) :
    m = m' :=
  List.inj_on_of_nodup_map h hm hm' hid

theorem touched_mem {rs : List SelRow} {i : Nat} (h : i ∈ touched rs) :
    ∃ r ∈ rs, r.msg.id = i := by
  unfold touched at h
  rw [List.mem_map] at h
  obtain ⟨r, hr, hri⟩ := h
  exact ⟨r, hr, hri⟩

theorem selectBatch_not_touched {s : State} {limit : Nat} {m : Message}
    (h : (s.messages.map Message.id).Nodup) (hm : m ∈ s.messages)
    (hst : m.status ≠ .queued) : m.id ∉ touched (selectBatch s limit) := by
  intro hmem
  obtain ⟨r, hr, hri⟩ := touched_mem hmem
  obtain ⟨hmsg, hq, _⟩ := selectBatch_mem hr
  have heq : r.msg = m := msg_id_inj h hmsg hm hri
  exact hst (heq ▸ hq)

theorem updMsg_updMsg (msgs : List Message) (mid : Nat) (g h : Message → Message)
    (hg : ∀ m, (g m).id = m.id) :
    updMsg (updMsg msgs mid g) mid h =
      msgs.map fun m => if m.id = mid then h (g m) else m := by
  unfold updMsg
  rw [List.map_map]
  congr 1
  funext m
  by_cases hid : m.id = mid
  · simp [Function.comp, hid, hg]
  · simp [Function.comp, hid]

theorem FrameOk_refl (m : Message) : FrameOk m m :=
  ⟨rfl, rfl, rfl, rfl, rfl, rfl⟩

theorem FrameOk_skipMark (reason : String) (m : Message) :
    FrameOk m (skipMark reason m) := ⟨rfl, rfl, rfl, rfl, rfl, rfl⟩

theorem FrameOk_sendingMark (m : Message) : FrameOk m (sendingMark m) :=
  ⟨rfl, rfl, rfl, rfl, rfl, rfl⟩

theorem FrameOk_sentMark_sendingMark (pid : String) (now : Nat) (m : Message) :
    FrameOk m (sentMark pid now (sendingMark m)) := ⟨rfl, rfl, rfl, rfl, rfl, rfl⟩

theorem FrameOk_failMark_sendingMark (e : String) (m : Message) :
    FrameOk m (failMark e (sendingMark m)) := ⟨rfl, rfl, rfl, rfl, rfl, rfl⟩

theorem FrameOk_ite (mid : Nat) (g : Message → Message)
    (hg : ∀ m, FrameOk m (g m)) (m : Message) :
    FrameOk m (if m.id = mid then g m else m) := by
  split
  · exact hg m
  · exact FrameOk_refl m

theorem ShapeOk_skipMark (now : Nat) (reason : String) (m : Message) :
    ShapeOk now m (skipMark reason m) :=
  Or.inr (Or.inl (by simp [skipMark]))

theorem ShapeOk_sendingMark (now : Nat) (m : Message) :
    ShapeOk now m (sendingMark m) :=
  Or.inr (Or.inr (Or.inl (by simp [sendingMark])))

theorem ShapeOk_sentMark_sendingMark (now : Nat) (pid : String) (m : Message) :
    ShapeOk now m (sentMark pid now (sendingMark m)) :=
  Or.inr (Or.inr (Or.inr (Or.inl (by simp [sentMark, sendingMark]))))

theorem ShapeOk_failMark_sendingMark (now : Nat) (e : String) (m : Message) :
    ShapeOk now m (failMark e (sendingMark m)) :=
  Or.inr (Or.inr (Or.inr (Or.inr (by simp [failMark, sendingMark]))))

theorem ShapeOk_ite (now : Nat) (mid : Nat) (g : Message → Message)
    (hg : ∀ m, ShapeOk now m (g m)) (m : Message) :
    ShapeOk now m (if m.id = mid then g m else m) := by
  split
  · exact hg m
  · exact Or.inl rfl

section ProcessOneEqs

variable {fault : Nat → DbStep → Bool}
variable {provider : String → String → Except String String}
variable {now cap : Nat} {r : SelRow} {msgs : List Message}

theorem processOne_skip_consent_fault
    (h : r.consented = false ∨ r.opted_out = true)
    (hf : fault r.msg.id .skipConsentWrite = true) :
    processOne fault provider now cap r msgs = ⟨msgs, [], some dbError⟩ := by
  unfold processOne
  rw [if_pos h, if_pos hf]

theorem processOne_skip_consent
    (h : r.consented = false ∨ r.opted_out = true)
    (hf : fault r.msg.id .skipConsentWrite = false) :
    processOne fault provider now cap r msgs =
      ⟨updMsg msgs r.msg.id (skipMark "no consent or opted out"), [], none⟩ := by
  unfold processOne
  rw [if_pos h, if_neg (by simp [hf])]

theorem processOne_capRead_fault
    (h : ¬(r.consented = false ∨ r.opted_out = true))
    (hf : fault r.msg.id .capCountRead = true) :
    processOne fault provider now cap r msgs = ⟨msgs, [], some dbError⟩ := by
  unfold processOne
  rw [if_neg h, if_pos hf]

theorem processOne_skip_cap_fault
    (h : ¬(r.consented = false ∨ r.opted_out = true))
    (hf1 : fault r.msg.id .capCountRead = false)
    (hcap : cap ≤ count_sent_today msgs r.msg.contact_id now)
    (hf2 : fault r.msg.id .skipCapWrite = true) :
    processOne fault provider now cap r msgs = ⟨msgs, [], some dbError⟩ := by
  unfold processOne
  rw [if_neg h, if_neg (by simp [hf1]), if_pos hcap, if_pos hf2]

theorem processOne_skip_cap
    (h : ¬(r.consented = false ∨ r.opted_out = true))
    (hf1 : fault r.msg.id .capCountRead = false)
    (hcap : cap ≤ count_sent_today msgs r.msg.contact_id now)
    (hf2 : fault r.msg.id .skipCapWrite = false) :
    processOne fault provider now cap r msgs =
      ⟨updMsg msgs r.msg.id (skipMark "daily cap reached"), [], none⟩ := by
  unfold processOne
  rw [if_neg h, if_neg (by simp [hf1]), if_pos hcap, if_neg (by simp [hf2])]

theorem processOne_sending_fault
    (h : ¬(r.consented = false ∨ r.opted_out = true))
    (hf1 : fault r.msg.id .capCountRead = false)
    (hcap : ¬(cap ≤ count_sent_today msgs r.msg.contact_id now))
    (hf2 : fault r.msg.id .sendingWrite = true) :
    processOne fault provider now cap r msgs = ⟨msgs, [], some dbError⟩ := by
  unfold processOne
  rw [if_neg h, if_neg (by simp [hf1]), if_neg hcap, if_pos hf2]

theorem processOne_sent {pid : String}
    (h : ¬(r.consented = false ∨ r.opted_out = true))
    (hf1 : fault r.msg.id .capCountRead = false)
    (hcap : ¬(cap ≤ count_sent_today msgs r.msg.contact_id now))
    (hf2 : fault r.msg.id .sendingWrite = false)
    (hp : provider r.msg.to_phone r.msg.body = .ok pid)
    (hf3 : fault r.msg.id .sentWrite = false) :
    processOne fault provider now cap r msgs =
      ⟨updMsg (updMsg msgs r.msg.id sendingMark) r.msg.id (sentMark pid now),
       [(r.msg.id, r.msg.to_phone, r.msg.body)], none⟩ := by
  unfold processOne
  rw [if_neg h, if_neg (by simp [hf1]), if_neg hcap, if_neg (by simp [hf2])]
  simp only [hp, hf3]
  rw [if_neg (by simp)]

theorem processOne_sent_write_fault {pid : String}
    (h : ¬(r.consented = false ∨ r.opted_out = true))
    (hf1 : fault r.msg.id .capCountRead = false)
    (hcap : ¬(cap ≤ count_sent_today msgs r.msg.contact_id now))
    (hf2 : fault r.msg.id .sendingWrite = false)
    (hp : provider r.msg.to_phone r.msg.body = .ok pid)
    (hf3 : fault r.msg.id .sentWrite = true)
    (hf4 : fault r.msg.id .failedWrite = false) :
    processOne fault provider now cap r msgs =
      ⟨updMsg (updMsg msgs r.msg.id sendingMark) r.msg.id (failMark dbError),
       [(r.msg.id, r.msg.to_phone, r.msg.body)], none⟩ := by
  unfold processOne
  rw [if_neg h, if_neg (by simp [hf1]), if_neg hcap, if_neg (by simp [hf2])]
  simp [hp, hf3, hf4]

theorem processOne_sent_write_fault_fault {pid : String}
    (h : ¬(r.consented = false ∨ r.opted_out = true))
    (hf1 : fault r.msg.id .capCountRead = false)
    (hcap : ¬(cap ≤ count_sent_today msgs r.msg.contact_id now))
    (hf2 : fault r.msg.id .sendingWrite = false)
    (hp : provider r.msg.to_phone r.msg.body = .ok pid)
    (hf3 : fault r.msg.id .sentWrite = true)
    (hf4 : fault r.msg.id .failedWrite = true) :
    processOne fault provider now cap r msgs =
      ⟨updMsg msgs r.msg.id sendingMark,
       [(r.msg.id, r.msg.to_phone, r.msg.body)], some dbError⟩ := by
  unfold processOne
  rw [if_neg h, if_neg (by simp [hf1]), if_neg hcap, if_neg (by simp [hf2])]
  simp [hp, hf3, hf4]

theorem processOne_failed {e : String}
    (h : ¬(r.consented = false ∨ r.opted_out = true))
    (hf1 : fault r.msg.id .capCountRead = false)
    (hcap : ¬(cap ≤ count_sent_today msgs r.msg.contact_id now))
    (hf2 : fault r.msg.id .sendingWrite = false)
    (hp : provider r.msg.to_phone r.msg.body = .error e)
    (hf4 : fault r.msg.id .failedWrite = false) :
    processOne fault provider now cap r msgs =
      ⟨updMsg (updMsg msgs r.msg.id sendingMark) r.msg.id (failMark e),
       [(r.msg.id, r.msg.to_phone, r.msg.body)], none⟩ := by
  unfold processOne
  rw [if_neg h, if_neg (by simp [hf1]), if_neg hcap, if_neg (by simp [hf2])]
  simp only [hp, hf4]
  rw [if_neg (by simp)]

theorem processOne_failed_fault {e : String}
    (h : ¬(r.consented = false ∨ r.opted_out = true))
    (hf1 : fault r.msg.id .capCountRead = false)
    (hcap : ¬(cap ≤ count_sent_today msgs r.msg.contact_id now))
    (hf2 : fault r.msg.id .sendingWrite = false)
    (hp : provider r.msg.to_phone r.msg.body = .error e)
    (hf4 : fault r.msg.id .failedWrite = true) :
    processOne fault provider now cap r msgs =
      ⟨updMsg msgs r.msg.id sendingMark,
       [(r.msg.id, r.msg.to_phone, r.msg.body)], some dbError⟩ := by
  unfold processOne
  rw [if_neg h, if_neg (by simp [hf1]), if_neg hcap, if_neg (by simp [hf2])]
  simp [hp, hf4]

end ProcessOneEqs

theorem processOne_spec (fault : Nat → DbStep → Bool)
    (provider : String → String → Except String String)
    (now cap : Nat) (r : SelRow) (msgs : List Message) :
    ∃ f : Message → Message,
      (processOne fault provider now cap r msgs).msgs = msgs.map f ∧
      (∀ m, FrameOk m (f m)) ∧
      (∀ m, ShapeOk now m (f m)) ∧
      (∀ m, m.id ≠ r.msg.id → f m = m) ∧
      (∀ m, (f m).status = .sent →
        m.status = .sent ∨ (m.id = r.msg.id ∧ r.consented = true ∧ r.opted_out = false)) ∧
      (∀ c ∈ (processOne fault provider now cap r msgs).calls,
        c.1 = r.msg.id ∧ r.consented = true ∧ r.opted_out = false) ∧
      ((processOne fault provider now cap r msgs).err = none →
        (r.consented = false ∨ r.opted_out = true) →
        ∀ m, m.id = r.msg.id → f m = skipMark "no consent or opted out" m) ∧
      ((∀ st, fault r.msg.id st = false) →
        (processOne fault provider now cap r msgs).err = none ∧
        ∀ m, m.id = r.msg.id →
          (f m).status = .skipped ∨ (f m).status = .sent ∨ (f m).status = .failed) := by
  by_cases hbad : r.consented = false ∨ r.opted_out = true
  · by_cases hf1 : fault r.msg.id .skipConsentWrite = true
    · rw [processOne_skip_consent_fault hbad hf1]
      refine ⟨fun m => m, by simp, fun m => FrameOk_refl m, fun m => Or.inl rfl,
        fun m _ => rfl, fun m h => Or.inl h, by simp, by simp,
        fun hfault => absurd hf1 (by simp [hfault])⟩
    · rw [Bool.not_eq_true] at hf1
      rw [processOne_skip_consent hbad hf1]
      refine ⟨fun m => if m.id = r.msg.id then skipMark "no consent or opted out" m else m,
        rfl, fun m => FrameOk_ite _ _ (FrameOk_skipMark _) m,
        fun m => ShapeOk_ite now _ _ (ShapeOk_skipMark now _) m,
        fun m hm => if_neg hm, ?_, by simp, ?_, ?_⟩
      · intro m h
        by_cases hid : m.id = r.msg.id
        · simp only [if_pos hid] at h
          exact absurd h (by simp [skipMark])
        · simp only [if_neg hid] at h
          exact Or.inl h
      · intro _ _ m hid
        exact if_pos hid
      · intro _
        refine ⟨rfl, fun m hid => ?_⟩
        left
        simp only [if_pos hid]
        rfl
  · have hcons : r.consented = true := by
      rcases Bool.eq_false_or_eq_true r.consented with hc | hc
      · exact hc
      · exact absurd (Or.inl hc) hbad
    have hopt : r.opted_out = false := by
      rcases Bool.eq_false_or_eq_true r.opted_out with hc | hc
      · exact absurd (Or.inr hc) hbad
      · exact hc
    by_cases hf1 : fault r.msg.id .capCountRead = true
    · rw [processOne_capRead_fault hbad hf1]
      refine ⟨fun m => m, by simp, fun m => FrameOk_refl m, fun m => Or.inl rfl,
        fun m _ => rfl, fun m h => Or.inl h, by simp, by simp,
        fun hfault => absurd hf1 (by simp [hfault])⟩
    · rw [Bool.not_eq_true] at hf1
      by_cases hcap : cap ≤ count_sent_today msgs r.msg.contact_id now
      · by_cases hf2 : fault r.msg.id .skipCapWrite = true
        · rw [processOne_skip_cap_fault hbad hf1 hcap hf2]
          refine ⟨fun m => m, by simp, fun m => FrameOk_refl m, fun m => Or.inl rfl,
            fun m _ => rfl, fun m h => Or.inl h, by simp, by simp,
            fun hfault => absurd hf2 (by simp [hfault])⟩
        · rw [Bool.not_eq_true] at hf2
          rw [processOne_skip_cap hbad hf1 hcap hf2]
          refine ⟨fun m => if m.id = r.msg.id then skipMark "daily cap reached" m else m,
            rfl, fun m => FrameOk_ite _ _ (FrameOk_skipMark _) m,
            fun m => ShapeOk_ite now _ _ (ShapeOk_skipMark now _) m,
            fun m hm => if_neg hm, ?_, by simp, fun _ hbad' => absurd hbad' hbad, ?_⟩
          · intro m h
            by_cases hid : m.id = r.msg.id
            · simp only [if_pos hid] at h
              exact absurd h (by simp [skipMark])
            · simp only [if_neg hid] at h
              exact Or.inl h
          · intro _
            refine ⟨rfl, fun m hid => ?_⟩
            left
            simp only [if_pos hid]
            rfl
      · by_cases hf2 : fault r.msg.id .sendingWrite = true
        · rw [processOne_sending_fault hbad hf1 hcap hf2]
          refine ⟨fun m => m, by simp, fun m => FrameOk_refl m, fun m => Or.inl rfl,
            fun m _ => rfl, fun m h => Or.inl h, by simp, by simp,
            fun hfault => absurd hf2 (by simp [hfault])⟩
        · rw [Bool.not_eq_true] at hf2
          cases hp : provider r.msg.to_phone r.msg.body with
          | ok pid =>
            by_cases hf3 : fault r.msg.id .sentWrite = true
            · by_cases hf4 : fault r.msg.id .failedWrite = true
              · rw [processOne_sent_write_fault_fault hbad hf1 hcap hf2 hp hf3 hf4]
                refine ⟨fun m => if m.id = r.msg.id then sendingMark m else m,
                  rfl, fun m => FrameOk_ite _ _ FrameOk_sendingMark m,
                  fun m => ShapeOk_ite now _ _ (ShapeOk_sendingMark now) m,
                  fun m hm => if_neg hm, ?_, ?_, by simp,
                  fun hfault => absurd hf3 (by simp [hfault])⟩
                · intro m h
                  by_cases hid : m.id = r.msg.id
                  · simp only [if_pos hid] at h
                    exact absurd h (by simp [sendingMark])
                  · simp only [if_neg hid] at h
                    exact Or.inl h
                · intro c hc
                  simp only [List.mem_singleton] at hc
                  subst hc
                  exact ⟨rfl, hcons, hopt⟩
              · rw [Bool.not_eq_true] at hf4
                rw [processOne_sent_write_fault hbad hf1 hcap hf2 hp hf3 hf4]
                refine ⟨fun m => if m.id = r.msg.id then failMark dbError (sendingMark m) else m,
                  updMsg_updMsg msgs r.msg.id sendingMark (failMark dbError) (fun _ => rfl),
                  fun m => FrameOk_ite _ _ (FrameOk_failMark_sendingMark _) m,
                  fun m => ShapeOk_ite now _ _ (ShapeOk_failMark_sendingMark now _) m,
                  fun m hm => if_neg hm, ?_, ?_, fun _ hbad' => absurd hbad' hbad,
                  fun hfault => absurd hf3 (by simp [hfault])⟩
                · intro m h
                  by_cases hid : m.id = r.msg.id
                  · simp only [if_pos hid] at h
                    exact absurd h (by simp [failMark, sendingMark])
                  · simp only [if_neg hid] at h
                    exact Or.inl h
                · intro c hc
                  simp only [List.mem_singleton] at hc
                  subst hc
                  exact ⟨rfl, hcons, hopt⟩
            · rw [Bool.not_eq_true] at hf3
              rw [processOne_sent hbad hf1 hcap hf2 hp hf3]
              refine ⟨fun m => if m.id = r.msg.id then sentMark pid now (sendingMark m) else m,
                updMsg_updMsg msgs r.msg.id sendingMark (sentMark pid now) (fun _ => rfl),
                fun m => FrameOk_ite _ _ (FrameOk_sentMark_sendingMark _ _) m,
                fun m => ShapeOk_ite now _ _ (ShapeOk_sentMark_sendingMark now _) m,
                fun m hm => if_neg hm, ?_, ?_, fun _ hbad' => absurd hbad' hbad, ?_⟩
              · intro m h
                by_cases hid : m.id = r.msg.id
                · exact Or.inr ⟨hid, hcons, hopt⟩
                · simp only [if_neg hid] at h
                  exact Or.inl h
              · intro c hc
                simp only [List.mem_singleton] at hc
                subst hc
                exact ⟨rfl, hcons, hopt⟩
              · intro _
                refine ⟨rfl, fun m hid => ?_⟩
                right; left
                simp only [if_pos hid]
                rfl
          | error e =>
            by_cases hf4 : fault r.msg.id .failedWrite = true
            · rw [processOne_failed_fault hbad hf1 hcap hf2 hp hf4]
              refine ⟨fun m => if m.id = r.msg.id then sendingMark m else m,
                rfl, fun m => FrameOk_ite _ _ FrameOk_sendingMark m,
                fun m => ShapeOk_ite now _ _ (ShapeOk_sendingMark now) m,
                fun m hm => if_neg hm, ?_, ?_, by simp,
                fun hfault => absurd hf4 (by simp [hfault])⟩
              · intro m h
                by_cases hid : m.id = r.msg.id
                · simp only [if_pos hid] at h
                  exact absurd h (by simp [sendingMark])
                · simp only [if_neg hid] at h
                  exact Or.inl h
              · intro c hc
                simp only [List.mem_singleton] at hc
                subst hc
                exact ⟨rfl, hcons, hopt⟩
            · rw [Bool.not_eq_true] at hf4
              rw [processOne_failed hbad hf1 hcap hf2 hp hf4]
              refine ⟨fun m => if m.id = r.msg.id then failMark e (sendingMark m) else m,
                updMsg_updMsg msgs r.msg.id sendingMark (failMark e) (fun _ => rfl),
                fun m => FrameOk_ite _ _ (FrameOk_failMark_sendingMark _) m,
                fun m => ShapeOk_ite now _ _ (ShapeOk_failMark_sendingMark now _) m,
                fun m hm => if_neg hm, ?_, ?_, fun _ hbad' => absurd hbad' hbad, ?_⟩
              · intro m h
                by_cases hid : m.id = r.msg.id
                · simp only [if_pos hid] at h
                  exact absurd h (by simp [failMark, sendingMark])
                · simp only [if_neg hid] at h
                  exact Or.inl h
              · intro c hc
                simp only [List.mem_singleton] at hc
                subst hc
                exact ⟨rfl, hcons, hopt⟩
              · intro _
                refine ⟨rfl, fun m hid => ?_⟩
                right; right
                simp only [if_pos hid]
                rfl

theorem FrameOk_trans {a b c : Message} (h1 : FrameOk a b) (h2 : FrameOk b c) :
    FrameOk a c :=
  ⟨h2.1.trans h1.1, h2.2.1.trans h1.2.1, h2.2.2.1.trans h1.2.2.1,
   h2.2.2.2.1.trans h1.2.2.2.1, h2.2.2.2.2.1.trans h1.2.2.2.2.1,
   h2.2.2.2.2.2.trans h1.2.2.2.2.2⟩

theorem touched_cons (r : SelRow) (rest : List SelRow) :
    touched (r :: rest) = r.msg.id :: touched rest := rfl

theorem runBatch_spec (fault : Nat → DbStep → Bool)
    (provider : String → String → Except String String) (now cap : Nat) :
    ∀ (rs : List SelRow) (msgs : List Message), (touched rs).Nodup →
    ∃ f : Message → Message,
      (runBatch fault provider now cap rs msgs).msgs = msgs.map f ∧
      (∀ m, FrameOk m (f m)) ∧
      (∀ m, ShapeOk now m (f m)) ∧
      (∀ m, m.id ∉ touched rs → f m = m) ∧
      (∀ m, (f m).status = .sent → m.status = .sent ∨
        ∃ r ∈ rs, r.msg.id = m.id ∧ r.consented = true ∧ r.opted_out = false) ∧
      (∀ c ∈ (runBatch fault provider now cap rs msgs).calls,
        ∃ r ∈ rs, c.1 = r.msg.id ∧ r.consented = true ∧ r.opted_out = false) ∧
      ((runBatch fault provider now cap rs msgs).err = none →
        ∀ r ∈ rs, (r.consented = false ∨ r.opted_out = true) →
        ∀ m, m.id = r.msg.id → f m = skipMark "no consent or opted out" m) ∧
      ((∀ i st, fault i st = false) →
        (runBatch fault provider now cap rs msgs).err = none ∧
        ∀ r ∈ rs, ∀ m, m.id = r.msg.id →
          (f m).status = .skipped ∨ (f m).status = .sent ∨ (f m).status = .failed) := by
  intro rs
  induction rs with
  | nil =>
    intro msgs _
    refine ⟨fun m => m, by simp [runBatch], fun m => FrameOk_refl m,
      fun m => Or.inl rfl, fun m _ => rfl, fun m h => Or.inl h,
      by simp [runBatch], by simp, fun _ => ⟨by simp [runBatch], by simp⟩⟩
  | cons r rest ih =>
    intro msgs hnd
    rw [touched_cons, List.nodup_cons] at hnd
    obtain ⟨hhead, hndr⟩ := hnd
    obtain ⟨f1, he1, hF1, hS1, hid1, hsent1, hcalls1, hskip1, hnof1⟩ :=
      processOne_spec fault provider now cap r msgs
    rcases hpo : processOne fault provider now cap r msgs with ⟨msgs1, calls1, err1⟩
    rw [hpo] at he1 hcalls1 hskip1 hnof1
    simp only at he1 hcalls1 hskip1 hnof1
    cases err1 with
    | some e =>
      have hrun : runBatch fault provider now cap (r :: rest) msgs =
          ⟨msgs1, calls1, some e⟩ := by
        simp [runBatch, hpo]
      rw [hrun]
      refine ⟨f1, he1, hF1, hS1, ?_, ?_, ?_, by simp, ?_⟩
      · intro m hm
        exact hid1 m fun h => hm (by rw [touched_cons]; exact h ▸ List.mem_cons_self _ _)
      · intro m h
        rcases hsent1 m h with h' | ⟨hid', hc, ho⟩
        · exact Or.inl h'
        · exact Or.inr ⟨r, List.mem_cons_self _ _, hid'.symm, hc, ho⟩
      · intro c hc
        obtain ⟨hcid, hc1, hc2⟩ := hcalls1 c hc
        exact ⟨r, List.mem_cons_self _ _, hcid, hc1, hc2⟩
      · intro hfault
        exact absurd (hnof1 fun st => hfault r.msg.id st).1 (by simp)
    | none =>
      have hrun : runBatch fault provider now cap (r :: rest) msgs =
          ⟨(runBatch fault provider now cap rest msgs1).msgs,
           calls1 ++ (runBatch fault provider now cap rest msgs1).calls,
           (runBatch fault provider now cap rest msgs1).err⟩ := by
        simp [runBatch, hpo]
      obtain ⟨g, he2, hF2, hS2, hid2, hsent2, hcalls2, hskip2, hnof2⟩ := ih msgs1 hndr
      rw [hrun]
      have hgf1 : ∀ m, m.id = r.msg.id → g (f1 m) = f1 m := by
        intro m hm
        apply hid2
        rw [(hF1 m).1, hm]
        exact hhead
      have hf1ne : ∀ m, m.id ≠ r.msg.id → f1 m = m := hid1
      refine ⟨fun m => g (f1 m), ?_, ?_, ?_, ?_, ?_, ?_, ?_, ?_⟩
      · rw [he2, he1, List.map_map]
        rfl
      · intro m
        exact FrameOk_trans (hF1 m) (hF2 (f1 m))
      · intro m
        show ShapeOk now m (g (f1 m))
        by_cases hm : m.id = r.msg.id
        · rw [hgf1 m hm]
          exact hS1 m
        · rw [hf1ne m hm]
          exact hS2 m
      · intro m hm
        rw [touched_cons] at hm
        have h1 : m.id ≠ r.msg.id := fun h => hm (h ▸ List.mem_cons_self _ _)
        have h2 : m.id ∉ touched rest := fun h => hm (List.mem_cons_of_mem _ h)
        show g (f1 m) = m
        rw [hf1ne m h1]
        exact hid2 m h2
      · intro m h
        rcases hsent2 (f1 m) h with h' | ⟨r', hr', hid', hc, ho⟩
        · rcases hsent1 m h' with h'' | ⟨hid'', hc, ho⟩
          · exact Or.inl h''
          · exact Or.inr ⟨r, List.mem_cons_self _ _, hid''.symm, hc, ho⟩
        · exact Or.inr ⟨r', List.mem_cons_of_mem _ hr', hid'.trans (hF1 m).1, hc, ho⟩
      · intro c hc
        simp only [List.mem_append] at hc
        rcases hc with hc | hc
        · obtain ⟨hcid, hc1, hc2⟩ := hcalls1 c hc
          exact ⟨r, List.mem_cons_self _ _, hcid, hc1, hc2⟩
        · obtain ⟨r', hr', hcid, hc1, hc2⟩ := hcalls2 c hc
          exact ⟨r', List.mem_cons_of_mem _ hr', hcid, hc1, hc2⟩
      · intro herr r' hr' hbad' m hidm
        simp only at herr
        rcases List.mem_cons.1 hr' with hr'' | hr''
        · subst hr''
          have hsk := hskip1 rfl hbad' m hidm
          show g (f1 m) = skipMark "no consent or opted out" m
          rw [hgf1 m hidm, hsk]
        · have hne : m.id ≠ r.msg.id := by
            intro h
            apply hhead
            rw [← h, hidm]
            exact List.mem_map_of_mem (fun r => r.msg.id) hr''
          show g (f1 m) = skipMark "no consent or opted out" m
          rw [hf1ne m hne]
          exact hskip2 herr r' hr'' hbad' m hidm
      · intro hfault
        obtain ⟨herr2, hst2⟩ := hnof2 hfault
        refine ⟨by simpa using herr2, ?_⟩
        intro r' hr' m hidm
        show (g (f1 m)).status = .skipped ∨ (g (f1 m)).status = .sent ∨
          (g (f1 m)).status = .failed
        rcases List.mem_cons.1 hr' with hr'' | hr''
        · subst hr''
          rw [hgf1 m hidm]
          exact (hnof1 fun st => hfault r'.msg.id st).2 m hidm
        · have hne : m.id ≠ r.msg.id := by
            intro h
            apply hhead
            rw [← h, hidm]
            exact List.mem_map_of_mem (fun r => r.msg.id) hr''
          rw [hf1ne m hne]
          exact hst2 r' hr'' m hidm

theorem updMsg_ids (msgs : List Message) (mid : Nat) (f : Message → Message)
    (hf : ∀ m, (f m).id = m.id) :
    (updMsg msgs mid f).map Message.id = msgs.map Message.id := by
  unfold updMsg
  rw [List.map_map]
  congr 1
  funext m
  by_cases h : m.id = mid <;> simp [Function.comp, h, hf]

theorem updMsg_link (msgs : List Message) (mid : Nat) (f : Message → Message)
    (hf : ∀ m, (f m).id = m.id ∧ (f m).contact_id = m.contact_id)
    (tid tcid : Nat)
    (h : ∀ m ∈ msgs, m.id = tid → m.contact_id = tcid) :
    ∀ m ∈ updMsg msgs mid f, m.id = tid → m.contact_id = tcid := by
  intro m' hm' hid'
  unfold updMsg at hm'
  rw [List.mem_map] at hm'
  obtain ⟨m, hm, rfl⟩ := hm'
  by_cases hc : m.id = mid
  · rw [if_pos hc] at hid' ⊢
    rw [(hf m).2]
    exact h m hm ((hf m).1.symm.trans hid' |>.symm ▸ rfl) |>.symm ▸
      h m hm (by rw [← (hf m).1, hid'])
  · rw [if_neg hc] at hid' ⊢
    exact h m hm hid'

theorem processOne_cap (fault : Nat → DbStep → Bool)
    (provider : String → String → Except String String)
    (now cap : Nat) (r : SelRow) (msgs : List Message)
    (hnd : (msgs.map Message.id).Nodup)
    (hlink : ∀ m ∈ msgs, m.id = r.msg.id → m.contact_id = r.msg.contact_id)
    (hcap : CapOk cap msgs) :
    CapOk cap (processOne fault provider now cap r msgs).msgs := by
  have hskip : ∀ reason : String,
      CapOk cap (updMsg msgs r.msg.id (skipMark reason)) := by
    intro reason cid d
    exact Nat.le_trans
      (countSentOnDay_updMsg_le msgs r.msg.id _ cid d
        fun m => sentOnDayPred_skipMark cid d reason m)
      (hcap cid d)
  have hsending : CapOk cap (updMsg msgs r.msg.id sendingMark) := by
    intro cid d
    exact Nat.le_trans
      (countSentOnDay_updMsg_le msgs r.msg.id _ cid d
        fun m => sentOnDayPred_sendingMark cid d m)
      (hcap cid d)
  have hsendfail : ∀ e : String,
      CapOk cap (updMsg (updMsg msgs r.msg.id sendingMark) r.msg.id (failMark e)) := by
    intro e cid d
    exact Nat.le_trans
      (countSentOnDay_updMsg_le _ r.msg.id _ cid d
        fun m => sentOnDayPred_failMark cid d e m)
      (hsending cid d)
  unfold processOne
  split
  · split
    · exact hcap
    · exact hskip _
  · split
    · exact hcap
    · split
      · split
        · exact hcap
        · exact hskip _
      · split
        · exact hcap
        · rename_i hbad hf1 hguard hf2
          cases hp : provider r.msg.to_phone r.msg.body with
          | ok pid =>
            simp only [hp]
            split
            · split
              · exact hsending
              · exact hsendfail _
            · -- the sent update: the only place a new `sent` row appears
              intro cid d
              show countSentOnDay
                (updMsg (updMsg msgs r.msg.id sendingMark) r.msg.id (sentMark pid now))
                cid d ≤ cap
              have hlt : count_sent_today msgs r.msg.contact_id now < cap :=
                Nat.lt_of_not_le hguard
              have hnd1 : ((updMsg msgs r.msg.id sendingMark).map Message.id).Nodup := by
                rw [updMsg_ids msgs r.msg.id sendingMark fun m => rfl]
                exact hnd
              have hlink1 : ∀ m ∈ updMsg msgs r.msg.id sendingMark,
                  m.id = r.msg.id → m.contact_id = r.msg.contact_id :=
                updMsg_link msgs r.msg.id sendingMark (fun m => ⟨rfl, rfl⟩) _ _ hlink
              have hb := countSentOnDay_updMsg_sent_le
                (updMsg msgs r.msg.id sendingMark) r.msg.id pid now cid d
              by_cases hq : r.msg.contact_id = cid ∧ dateOfTime now = d
              · have hcnt1 : (updMsg msgs r.msg.id sendingMark).countP
                    (fun m => m.id == r.msg.id && m.contact_id == cid &&
                      (dateOfTime now == d)) ≤ 1 := by
                  refine Nat.le_trans (List.countP_mono_left fun m _ hm => ?_) 
                    (countP_id_le_one _ r.msg.id hnd1)
                  simp only [Bool.and_eq_true, beq_iff_eq] at hm ⊢
                  exact hm.1.1
                have hle : countSentOnDay (updMsg msgs r.msg.id sendingMark) cid d ≤
                    countSentOnDay msgs cid d := by
                  exact countSentOnDay_updMsg_le msgs r.msg.id _ cid d
                    fun m => sentOnDayPred_sendingMark cid d m
                have heq : countSentOnDay msgs cid d =
                    count_sent_today msgs r.msg.contact_id now := by
                  rw [count_sent_today_eq, hq.1, hq.2]
                omega
              · have hcnt0 : (updMsg msgs r.msg.id sendingMark).countP
                    (fun m => m.id == r.msg.id && m.contact_id == cid &&
                      (dateOfTime now == d)) = 0 := by
                  apply countP_eq_zero_of_all
                  intro m hm
                  by_cases hid : m.id = r.msg.id
                  · have hcm := hlink1 m hm hid
                    by_cases hc1 : m.contact_id = cid
                    · have hrc : r.msg.contact_id = cid := hcm.symm.trans hc1
                      have hd : ¬ dateOfTime now = d := fun hdd => hq ⟨hrc, hdd⟩
                      simp [hid, hc1, hd]
                    · simp [hid, hc1]
                  · simp [hid]
                have hle : countSentOnDay (updMsg msgs r.msg.id sendingMark) cid d ≤
                    countSentOnDay msgs cid d :=
                  countSentOnDay_updMsg_le msgs r.msg.id _ cid d
                    fun m => sentOnDayPred_sendingMark cid d m
                have := hcap cid d
                omega
          | error e =>
            simp only [hp]
            split
            · exact hsending
            · exact hsendfail _

theorem runBatch_cap (fault : Nat → DbStep → Bool)
    (provider : String → String → Except String String) (now cap : Nat) :
    ∀ (rs : List SelRow) (msgs : List Message),
    (msgs.map Message.id).Nodup →
    (∀ r' ∈ rs, ∀ m ∈ msgs, m.id = r'.msg.id → m.contact_id = r'.msg.contact_id) →
    CapOk cap msgs →
    CapOk cap (runBatch fault provider now cap rs msgs).msgs := by
  intro rs
  induction rs with
  | nil =>
    intro msgs _ _ hcap
    simpa [runBatch] using hcap
  | cons r rest ih =>
    intro msgs hnd hlink hcap
    have hcap1 : CapOk cap (processOne fault provider now cap r msgs).msgs :=
      processOne_cap fault provider now cap r msgs hnd
        (hlink r (List.mem_cons_self _ _)) hcap
    obtain ⟨f1, he1, hF1, _, _, _, _, _⟩ :=
      processOne_spec fault provider now cap r msgs
    rcases hpo : processOne fault provider now cap r msgs with ⟨msgs1, calls1, err1⟩
    rw [hpo] at he1 hcap1
    simp only at he1 hcap1
    cases err1 with
    | some e =>
      have hrun : runBatch fault provider now cap (r :: rest) msgs =
          ⟨msgs1, calls1, some e⟩ := by
        simp [runBatch, hpo]
      rw [hrun]
      exact hcap1
    | none =>
      have hrun : (runBatch fault provider now cap (r :: rest) msgs).msgs =
          (runBatch fault provider now cap rest msgs1).msgs := by
        simp [runBatch, hpo]
      rw [hrun]
      apply ih msgs1
      · rw [he1]
        have : (List.map f1 msgs).map Message.id = msgs.map Message.id := by
          rw [List.map_map]
          congr 1
          funext m
          exact (hF1 m).1
        rw [this]
        exact hnd
      · intro r' hr' m' hm' hid'
        rw [he1] at hm'
        rw [List.mem_map] at hm'
        obtain ⟨m, hm, rfl⟩ := hm'
        rw [(hF1 m).2.2.1]
        exact hlink r' (List.mem_cons_of_mem _ hr') m hm ((hF1 m).1.symm.trans hid')
      · exact hcap1

theorem selectBatch_link {s : State} {limit : Nat}
    (hnd : (s.messages.map Message.id).Nodup) :
    ∀ r ∈ selectBatch s limit, ∀ m ∈ s.messages,
      m.id = r.msg.id → m.contact_id = r.msg.contact_id := by
  intro r hr m hm hid
  rw [msg_id_inj hnd hm (selectBatch_mem hr).1 hid]

theorem tickF_messages (fault : Nat → DbStep → Bool)
    (provider : String → String → Except String String)
    (now limit cap : Nat) (s : State) :
    (process_queue_tickF fault provider now limit cap s).state.messages =
      (runBatch fault provider now cap (selectBatch s limit) s.messages).msgs := by
  unfold process_queue_tickF
  cases h : (runBatch fault provider now cap (selectBatch s limit) s.messages).err <;>
    simp [h]

theorem tickF_calls (fault : Nat → DbStep → Bool)
    (provider : String → String → Except String String)
    (now limit cap : Nat) (s : State) :
    (process_queue_tickF fault provider now limit cap s).calls =
      (runBatch fault provider now cap (selectBatch s limit) s.messages).calls := by
  unfold process_queue_tickF
  cases h : (runBatch fault provider now cap (selectBatch s limit) s.messages).err <;>
    simp [h]

theorem tickF_err (fault : Nat → DbStep → Bool)
    (provider : String → String → Except String String)
    (now limit cap : Nat) (s : State) :
    (process_queue_tickF fault provider now limit cap s).err =
      (runBatch fault provider now cap (selectBatch s limit) s.messages).err := by
  unfold process_queue_tickF
  cases h : (runBatch fault provider now cap (selectBatch s limit) s.messages).err <;>
    simp [h]

theorem tickF_contacts (fault : Nat → DbStep → Bool)
    (provider : String → String → Except String String)
    (now limit cap : Nat) (s : State) :
    (process_queue_tickF fault provider now limit cap s).state.contacts = s.contacts := by
  unfold process_queue_tickF
  cases h : (runBatch fault provider now cap (selectBatch s limit) s.messages).err <;>
    simp [h]

theorem processOne_noFaults_err (provider : String → String → Except String String)
    (now cap : Nat) (r : SelRow) (msgs : List Message) :
    (processOne noFaults provider now cap r msgs).err = none := by
  unfold processOne noFaults
  simp only [Bool.false_eq_true, if_false]
  split
  · rfl
  · split
    · rfl
    · cases provider r.msg.to_phone r.msg.body <;> rfl

theorem runBatch_noFaults_err (provider : String → String → Except String String)
    (now cap : Nat) : ∀ (rs : List SelRow) (msgs : List Message),
    (runBatch noFaults provider now cap rs msgs).err = none := by
  intro rs
  induction rs with
  | nil => intro msgs; rfl
  | cons r rest ih =>
    intro msgs
    have hpe := processOne_noFaults_err provider now cap r msgs
    rcases hpo : processOne noFaults provider now cap r msgs with ⟨msgs1, calls1, err1⟩
    rw [hpo] at hpe
    simp only at hpe
    subst hpe
    simp [runBatch, hpo, ih]

theorem tick_messages (provider : String → String → Except String String)
    (now limit cap : Nat) (s : State) :
    (process_queue_tick provider now limit cap s).state.messages =
      (runBatch noFaults provider now cap (selectBatch s limit) s.messages).msgs :=
  tickF_messages noFaults provider now limit cap s

theorem tick_campaigns (provider : String → String → Except String String)
    (now limit cap : Nat) (s : State) :
    (process_queue_tick provider now limit cap s).state.campaigns =
      completionScan s.campaigns
        (runBatch noFaults provider now cap (selectBatch s limit) s.messages).msgs
        now := by
  unfold process_queue_tick process_queue_tickF
  simp only [runBatch_noFaults_err provider now cap (selectBatch s limit) s.messages]

theorem tick_calls (provider : String → String → Except String String)
    (now limit cap : Nat) (s : State) :
    (process_queue_tick provider now limit cap s).calls =
      (runBatch noFaults provider now cap (selectBatch s limit) s.messages).calls :=
  tickF_calls noFaults provider now limit cap s

theorem touched_inj {rs : List SelRow} (hnd : (touched rs).Nodup)
    {r r' : SelRow} (hr : r ∈ rs) (hr' : r' ∈ rs) (h : r.msg.id = r'.msg.id) :
    r = r' :=
  List.inj_on_of_nodup_map hnd hr hr' h

/-- C1: consent gate.  (i) Any message that is `queued` before a fault-free
tick and `sent` after it belongs to a contact that was consented and not
opted out at the time the tick read its batch; (ii) a selected queued row
whose contact snapshot is not consented or is opted out is transitioned to
`skipped` with error text 'no consent or opted out', and the provider is
not invoked for that message. -/
theorem consent_gate (provider : String → String → Except String String)
    (now limit cap : Nat) (s : State)
    (hnd : (s.messages.map Message.id).Nodup) :
    (∀ m ∈ s.messages, m.status = .queued →
      ∀ m' ∈ (process_queue_tick provider now limit cap s).state.messages,
        m'.id = m.id → m'.status = .sent →
        ∃ c, lookupContact s.contacts m.contact_id = some c ∧
          c.consented = true ∧ c.opted_out = false) ∧
    (∀ r ∈ selectBatch s limit, (r.consented = false ∨ r.opted_out = true) →
      (∀ m' ∈ (process_queue_tick provider now limit cap s).state.messages,
        m'.id = r.msg.id →
        m'.status = .skipped ∧ m'.error = some "no consent or opted out") ∧
      (∀ c ∈ (process_queue_tick provider now limit cap s).calls,
        c.1 ≠ r.msg.id)) := by
  have hndb := selectBatch_touched_nodup (s := s) limit hnd
  obtain ⟨f, he, hF, hS, hid, hsent, hcalls, hskip, hnof⟩ :=
    runBatch_spec noFaults provider now cap (selectBatch s limit) s.messages hndb
  have herr := runBatch_noFaults_err provider now cap (selectBatch s limit) s.messages
  constructor
  · intro m hm hq m' hm' hid' hsent'
    rw [tick_messages, he] at hm'
    rw [List.mem_map] at hm'
    obtain ⟨m0, hm0, rfl⟩ := hm'
    have hm0id : m0.id = m.id := ((hF m0).1).symm.trans hid'
    have hm0eq : m0 = m := msg_id_inj hnd hm0 hm hm0id
    subst hm0eq
    rcases hsent m0 hsent' with hq' | ⟨r, hr, hrid, hc, ho⟩
    · rw [hq] at hq'
      exact absurd hq' (by simp)
    · obtain ⟨hrmem, _, c, hlc, hcc, hoo⟩ := selectBatch_mem hr
      have : r.msg = m0 := msg_id_inj hnd hrmem hm0 hrid
      rw [← this]
      exact ⟨c, hlc, hcc ▸ hc, hoo ▸ ho⟩
  · intro r hr hbad
    constructor
    · intro m' hm' hid'
      rw [tick_messages, he] at hm'
      rw [List.mem_map] at hm'
      obtain ⟨m0, hm0, rfl⟩ := hm'
      have hm0id : m0.id = r.msg.id := ((hF m0).1).symm.trans hid'
      rw [hskip herr r hr hbad m0 hm0id]
      exact ⟨rfl, rfl⟩
    · intro c hc hceq
      rw [tick_calls] at hc
      obtain ⟨r', hr', hcid, hc1, hc2⟩ := hcalls c hc
      have : r = r' := touched_inj hndb hr hr' (by rw [← hceq, hcid])
      rcases hbad with hb | hb
      · rw [this, hc1] at hb
        exact absurd hb (by simp)
      · rw [this, hc2] at hb
        exact absurd hb (by simp)

/-- C2: daily cap enforcement.  If every (contact, calendar day) pair has at
most `cap` sent messages before a tick, the same holds after the tick (for
any fault oracle and any provider), and a consented, non-opted-out row
processed while its contact's fresh `count_sent_today` is already at the
cap is written to `skipped` with error text 'daily cap reached', with no
provider call. -/
theorem daily_cap (fault : Nat → DbStep → Bool)
    (provider : String → String → Except String String)
    (now limit cap : Nat) (s : State)
    (hnd : (s.messages.map Message.id).Nodup)
    (hcap : CapOk cap s.messages) :
    CapOk cap (process_queue_tickF fault provider now limit cap s).state.messages ∧
    (∀ (r : SelRow) (msgs : List Message), r.consented = true → r.opted_out = false →
      cap ≤ count_sent_today msgs r.msg.contact_id now →
      processOne noFaults provider now cap r msgs =
        ⟨updMsg msgs r.msg.id (skipMark "daily cap reached"), [], none⟩) := by
  constructor
  · rw [tickF_messages]
    exact runBatch_cap fault provider now cap (selectBatch s limit) s.messages hnd
      (selectBatch_link hnd) hcap
  · intro r msgs hc ho hge
    exact processOne_skip_cap (by simp [hc, ho]) rfl hge rfl

theorem countP_zip_self_map {α : Type} (P : α × α → Bool) (Q : α → Bool)
    (f : α → α) (h : ∀ a, P (a, f a) = true → Q a = true) :
    ∀ l : List α, ((l.zip (l.map f)).countP P) ≤ l.countP Q := by
  intro l
  induction l with
  | nil => simp
  | cons a l ih =>
    simp only [List.map_cons, List.zip_cons_cons, List.countP_cons]
    by_cases hP : P (a, f a) = true
    · simp only [hP, h a hP, if_true]
      omega
    · rw [if_neg hP]
      split <;> omega

theorem countP_mem_le_length (msgs : List Message) (ids : List Nat)
    (hnd : (msgs.map Message.id).Nodup) :
    (msgs.countP fun m => decide (m.id ∈ ids)) ≤ ids.length := by
  rw [List.countP_eq_length_filter]
  have h1 : ((msgs.filter fun m => decide (m.id ∈ ids)).map Message.id).Nodup :=
    List.Sublist.nodup ((msgs.filter_sublist).map _) hnd
  have h2 : (msgs.filter fun m => decide (m.id ∈ ids)).map Message.id ⊆ ids := by
    intro i hi
    rw [List.mem_map] at hi
    obtain ⟨m, hm, rfl⟩ := hi
    exact of_decide_eq_true ((List.mem_filter.1 hm).2)
  calc (msgs.filter fun m => decide (m.id ∈ ids)).length
      = ((msgs.filter fun m => decide (m.id ∈ ids)).map Message.id).length :=
        (List.length_map _ _).symm
    _ ≤ ids.length := (List.subperm_of_subset h1 h2).length_le

/-- C3: batch bound and ordering.  A tick's batch query returns at most
`limit` rows, sorted by creation time ascending, all of them queued rows of
the message table; and a single tick moves at most `limit` messages out of
`queued`. -/
theorem batch_bound (fault : Nat → DbStep → Bool)
    (provider : String → String → Except String String)
    (now limit cap : Nat) (s : State)
    (hnd : (s.messages.map Message.id).Nodup) :
    (selectBatch s limit).length ≤ limit ∧
    (selectBatch s limit).Pairwise createdLe ∧
    (∀ r ∈ selectBatch s limit, r.msg ∈ s.messages ∧ r.msg.status = .queued) ∧
    (s.messages.zip
        (process_queue_tickF fault provider now limit cap s).state.messages).countP
      (fun p => decide (p.1.status = .queued) && decide (p.2.status ≠ .queued)) ≤
      limit := by
  have hndb := selectBatch_touched_nodup (s := s) limit hnd
  obtain ⟨f, he, hF, hS, hid, _, _, _, _⟩ :=
    runBatch_spec fault provider now cap (selectBatch s limit) s.messages hndb
  refine ⟨selectBatch_length_le s limit, selectBatch_sorted s limit,
    fun r hr => ⟨(selectBatch_mem hr).1, (selectBatch_mem hr).2.1⟩, ?_⟩
  rw [tickF_messages, he]
  have step1 : (s.messages.zip (s.messages.map f)).countP
      (fun p => decide (p.1.status = .queued) && decide (p.2.status ≠ .queued)) ≤
      s.messages.countP fun m => decide (m.id ∈ touched (selectBatch s limit)) := by
    apply countP_zip_self_map
    intro a hP
    simp only [Bool.and_eq_true, decide_eq_true_eq] at hP
    by_cases hmem : a.id ∈ touched (selectBatch s limit)
    · simp [hmem]
    · have hfa : (f a).status = a.status := by rw [hid a hmem]
      exact absurd (hfa.trans hP.1) hP.2
  refine Nat.le_trans step1 (Nat.le_trans
    (countP_mem_le_length s.messages _ hnd) ?_)
  calc (touched (selectBatch s limit)).length
      = (selectBatch s limit).length := List.length_map _ _
    _ ≤ limit := selectBatch_length_le s limit

theorem tick_err (provider : String → String → Except String String)
    (now limit cap : Nat) (s : State) :
    (process_queue_tick provider now limit cap s).err = none := by
  rw [process_queue_tick, tickF_err]
  exact runBatch_noFaults_err provider now cap (selectBatch s limit) s.messages

theorem enqueueAll_mem (cid : Nat) (tpl baseUrl : String) (now : Nat) :
    ∀ (cs : List Contact) (nid : Nat), ∀ m' ∈ enqueueAll cid tpl baseUrl now cs nid,
      nid ≤ m'.id ∧ m'.status = .queued ∧ m'.campaign_id = cid ∧
      m'.provider_id = none ∧ m'.error = none ∧ m'.sent_at = none := by
  intro cs
  induction cs with
  | nil =>
    intro nid m' hm'
    simp [enqueueAll] at hm'
  | cons c cs ih =>
    intro nid m' hm'
    simp only [enqueueAll, List.mem_cons] at hm'
    rcases hm' with rfl | hm'
    · exact ⟨Nat.le_refl _, rfl, rfl, rfl, rfl, rfl⟩
    · obtain ⟨h1, hrest⟩ := ih (nid + 1) m' hm'
      exact ⟨by omega, hrest⟩

theorem enqueueAll_length (cid : Nat) (tpl baseUrl : String) (now : Nat) :
    ∀ (cs : List Contact) (nid : Nat),
      (enqueueAll cid tpl baseUrl now cs nid).length = cs.length := by
  intro cs
  induction cs with
  | nil => intro nid; rfl
  | cons c cs ih =>
    intro nid
    simp [enqueueAll, ih]

theorem camp_id_inj {camps : List Campaign} (h : (camps.map Campaign.id).Nodup)
    {c c' : Campaign} (hc : c ∈ camps) (hc' : c' ∈ camps) (hid : c.id = c'.id) :
    c = c' :=
  List.inj_on_of_nodup_map h hc hc' hid

theorem find_campaign {s : State} {cid : Nat} {camp : Campaign}
    (hndc : (s.campaigns.map Campaign.id).Nodup)
    (hmem : camp ∈ s.campaigns) (hid : camp.id = cid) :
    s.campaigns.find? (fun c => c.id == cid) = some camp := by
  cases hf : s.campaigns.find? (fun c => c.id == cid) with
  | none =>
    rw [List.find?_eq_none] at hf
    exact absurd (by simp [hid]) (hf camp hmem)
  | some c' =>
    have h1 := List.find?_some hf
    have h2 := List.mem_of_find?_eq_some hf
    simp only [beq_iff_eq] at h1
    rw [camp_id_inj hndc h2 hmem (h1.trans hid.symm)]

theorem campaigns_start_not_found (baseUrl : String) (s : State) (cid now : Nat)
    (h : ∀ c ∈ s.campaigns, c.id ≠ cid) :
    campaigns_start baseUrl s cid now = (s, .error "Campaign not found") := by
  unfold campaigns_start
  rw [List.find?_eq_none.2 fun c hc => by simp [h c hc]]

theorem campaigns_start_found (baseUrl : String) (s : State) (cid now : Nat)
    (camp : Campaign)
    (hfind : s.campaigns.find? (fun c => c.id == cid) = some camp) :
    campaigns_start baseUrl s cid now =
      ({ s with
          campaigns := s.campaigns.map fun c =>
            if c.id = cid then { c with started_at := some now } else c,
          messages := s.messages ++
            enqueueAll cid camp.message_template baseUrl now
              (selectRecipients s camp) s.nextMsgId,
          nextMsgId := s.nextMsgId + (selectRecipients s camp).length },
       .ok (selectRecipients s camp).length) := by
  unfold campaigns_start
  rw [hfind]

theorem tick_frozen {fault : Nat → DbStep → Bool}
    {provider : String → String → Except String String}
    {now limit cap : Nat} {s : State}
    (hnd : (s.messages.map Message.id).Nodup)
    {m : Message} (hm : m ∈ s.messages) (hst : m.status ≠ .queued) :
    ∀ m' ∈ (process_queue_tickF fault provider now limit cap s).state.messages,
      m'.id = m.id → m' = m := by
  obtain ⟨f, he, hF, _, hid, _, _, _, _⟩ :=
    runBatch_spec fault provider now cap (selectBatch s limit) s.messages
      (selectBatch_touched_nodup limit hnd)
  intro m' hm' hideq
  rw [tickF_messages, he] at hm'
  rw [List.mem_map] at hm'
  obtain ⟨m0, hm0, rfl⟩ := hm'
  have hm0eq : m0 = m := msg_id_inj hnd hm0 hm ((hF m0).1.symm.trans hideq)
  subst hm0eq
  exact hid m0 (selectBatch_not_touched hnd hm0 hst)

theorem start_frozen {baseUrl : String} {s : State} {cid2 now2 : Nat}
    (hnd : (s.messages.map Message.id).Nodup)
    (hfresh : ∀ m ∈ s.messages, m.id < s.nextMsgId)
    {m : Message} (hm : m ∈ s.messages) :
    ∀ m' ∈ (campaigns_start baseUrl s cid2 now2).1.messages,
      m'.id = m.id → m' = m := by
  intro m' hm' hideq
  cases hf : s.campaigns.find? (fun c => c.id == cid2) with
  | none =>
    unfold campaigns_start at hm'
    rw [hf] at hm'
    exact msg_id_inj hnd hm' hm hideq
  | some camp =>
    rw [campaigns_start_found baseUrl s cid2 now2 camp hf] at hm'
    simp only [List.mem_append] at hm'
    rcases hm' with hm' | hm'
    · exact msg_id_inj hnd hm' hm hideq
    · obtain ⟨hge, _⟩ := enqueueAll_mem cid2 camp.message_template baseUrl now2
        (selectRecipients s camp) s.nextMsgId m' hm'
      have := hfresh m hm
      omega

/-- C9: terminal exclusivity.  A message whose status is `sent`, `failed`,
or `skipped` is returned unchanged (every column identical) by any dispatch
tick — including its completion scan, which writes only campaigns — and by
any campaign activation. -/
theorem terminal_exclusivity (fault : Nat → DbStep → Bool)
    (provider : String → String → Except String String)
    (now limit cap : Nat) (baseUrl : String) (cid2 now2 : Nat) (s : State)
    (hnd : (s.messages.map Message.id).Nodup)
    (hfresh : ∀ m ∈ s.messages, m.id < s.nextMsgId) :
    ∀ m ∈ s.messages,
      (m.status = .sent ∨ m.status = .failed ∨ m.status = .skipped) →
      (∀ m' ∈ (process_queue_tickF fault provider now limit cap s).state.messages,
        m'.id = m.id → m' = m) ∧
      (∀ m' ∈ (campaigns_start baseUrl s cid2 now2).1.messages,
        m'.id = m.id → m' = m) := by
  intro m hm hterm
  have hst : m.status ≠ .queued := by
    rcases hterm with h | h | h <;> simp [h]
  exact ⟨tick_frozen hnd hm hst, start_frozen hnd hfresh hm⟩

/-- C10: a message in `sending` is invisible to the batch query (which
selects only `queued` rows) and is never modified by any tick or by
campaign activation — there is no startup reconciliation, so it stays in
`sending` forever. -/
theorem sending_stuck (fault : Nat → DbStep → Bool)
    (provider : String → String → Except String String)
    (now limit cap : Nat) (baseUrl : String) (cid2 now2 : Nat) (s : State)
    (hnd : (s.messages.map Message.id).Nodup)
    (hfresh : ∀ m ∈ s.messages, m.id < s.nextMsgId) :
    (∀ r ∈ selectBatch s limit, r.msg.status = .queued) ∧
    (∀ m ∈ s.messages, m.status = .sending →
      (∀ m' ∈ (process_queue_tickF fault provider now limit cap s).state.messages,
        m'.id = m.id → m' = m) ∧
      (∀ m' ∈ (campaigns_start baseUrl s cid2 now2).1.messages,
        m'.id = m.id → m' = m)) := by
  refine ⟨fun r hr => (selectBatch_mem hr).2.1, ?_⟩
  intro m hm hsend
  have hst : m.status ≠ .queued := by simp [hsend]
  exact ⟨tick_frozen hnd hm hst, start_frozen hnd hfresh hm⟩

/-- C8: provider outcome recording.  The message-field invariant (`sent`
rows carry exactly a provider reference and a sent-time; `failed`/`skipped`
rows carry exactly an error; non-terminal rows carry neither) is preserved
by every tick and by activation; an eligible row whose provider call fails
is written to `failed` with the provider's error text verbatim; an eligible
row whose provider call succeeds is written to `sent` with the provider
reference and the current timestamp; and a `failed` message is never
re-queued (a tick returns it unchanged). -/
theorem provider_outcome (fault : Nat → DbStep → Bool)
    (provider : String → String → Except String String)
    (now limit cap : Nat) (baseUrl : String) (cid2 now2 : Nat) (s : State)
    (hnd : (s.messages.map Message.id).Nodup)
    (hinv : ∀ m ∈ s.messages, MsgInv m) :
    (∀ m' ∈ (process_queue_tickF fault provider now limit cap s).state.messages,
      MsgInv m') ∧
    (∀ m' ∈ (campaigns_start baseUrl s cid2 now2).1.messages, MsgInv m') ∧
    (∀ (r : SelRow) (msgs : List Message) (e : String),
      r.consented = true → r.opted_out = false →
      count_sent_today msgs r.msg.contact_id now < cap →
      provider r.msg.to_phone r.msg.body = .error e →
      processOne noFaults provider now cap r msgs =
        ⟨updMsg (updMsg msgs r.msg.id sendingMark) r.msg.id (failMark e),
         [(r.msg.id, r.msg.to_phone, r.msg.body)], none⟩) ∧
    (∀ (r : SelRow) (msgs : List Message) (pid : String),
      r.consented = true → r.opted_out = false →
      count_sent_today msgs r.msg.contact_id now < cap →
      provider r.msg.to_phone r.msg.body = .ok pid →
      processOne noFaults provider now cap r msgs =
        ⟨updMsg (updMsg msgs r.msg.id sendingMark) r.msg.id (sentMark pid now),
         [(r.msg.id, r.msg.to_phone, r.msg.body)], none⟩) ∧
    (∀ m ∈ s.messages, m.status = .failed →
      ∀ m' ∈ (process_queue_tickF fault provider now limit cap s).state.messages,
        m'.id = m.id → m' = m) := by
  have hndb := selectBatch_touched_nodup (s := s) limit hnd
  obtain ⟨f, he, hF, hS, hid, _, _, _, _⟩ :=
    runBatch_spec fault provider now cap (selectBatch s limit) s.messages hndb
  refine ⟨?_, ?_, ?_, ?_, ?_⟩
  · intro m' hm'
    rw [tickF_messages, he] at hm'
    rw [List.mem_map] at hm'
    obtain ⟨m0, hm0, rfl⟩ := hm'
    by_cases hmem : m0.id ∈ touched (selectBatch s limit)
    · obtain ⟨r, hr, hrid⟩ := touched_mem hmem
      obtain ⟨hrmem, hrq, _⟩ := selectBatch_mem hr
      have hrm : r.msg = m0 := msg_id_inj hnd hrmem hm0 hrid
      have hq : m0.status = .queued := hrm ▸ hrq
      have hm0inv := hinv m0 hm0
      rw [MsgInv, hq] at hm0inv
      obtain ⟨hpn, hen, hsn⟩ := hm0inv
      rcases hS m0 with heq | ⟨hst, herr, hpid, hsa⟩ | ⟨hst, hpid, herr, hsa⟩ |
        ⟨hst, hpid, hsa, herr⟩ | ⟨hst, herr, hpid, hsa⟩
      · rw [heq]
        exact hinv m0 hm0
      · rw [MsgInv, hst]
        exact ⟨herr, hpid.trans hpn⟩
      · rw [MsgInv, hst]
        exact ⟨hpid.trans hpn, herr.trans hen, hsa.trans hsn⟩
      · rw [MsgInv, hst]
        refine ⟨hpid, herr.trans hen, by simp [hsa]⟩
      · rw [MsgInv, hst]
        exact ⟨herr, hpid.trans hpn⟩
    · rw [hid m0 hmem]
      exact hinv m0 hm0
  · intro m' hm'
    cases hf : s.campaigns.find? (fun c => c.id == cid2) with
    | none =>
      unfold campaigns_start at hm'
      rw [hf] at hm'
      exact hinv m' hm'
    | some camp =>
      rw [campaigns_start_found baseUrl s cid2 now2 camp hf] at hm'
      simp only [List.mem_append] at hm'
      rcases hm' with hm' | hm'
      · exact hinv m' hm'
      · obtain ⟨_, hq, _, hpn, hen, hsn⟩ := enqueueAll_mem cid2 camp.message_template
          baseUrl now2 (selectRecipients s camp) s.nextMsgId m' hm'
        rw [MsgInv, hq]
        exact ⟨hpn, hen, hsn⟩
  · intro r msgs e hc ho hlt hp
    exact processOne_failed (by simp [hc, ho]) rfl (Nat.not_le.2 hlt) rfl hp rfl
  · intro r msgs pid hc ho hlt hp
    exact processOne_sent (by simp [hc, ho]) rfl (Nat.not_le.2 hlt) rfl hp rfl
  · intro m hm hfl
    exact tick_frozen hnd hm (by simp [hfl])

/-- C4 (amended): per-message isolation holds for provider-call failures —
with no storage faults, a tick propagates no exception and every selected
message reaches a terminal status (`skipped`, `sent`, or `failed`)
regardless of which provider calls fail — but not for storage exceptions,
which propagate and abort the rest of the batch (see the counterexample). -/
theorem tick_isolation (provider : String → String → Except String String)
    (now limit cap : Nat) (s : State)
    (hnd : (s.messages.map Message.id).Nodup) :
    (process_queue_tick provider now limit cap s).err = none ∧
    ∀ r ∈ selectBatch s limit,
      ∀ m' ∈ (process_queue_tick provider now limit cap s).state.messages,
        m'.id = r.msg.id →
        m'.status = .skipped ∨ m'.status = .sent ∨ m'.status = .failed := by
  have hndb := selectBatch_touched_nodup (s := s) limit hnd
  obtain ⟨f, he, hF, _, _, _, _, _, hnof⟩ :=
    runBatch_spec noFaults provider now cap (selectBatch s limit) s.messages hndb
  obtain ⟨_, hstat⟩ := hnof fun i st => rfl
  refine ⟨tick_err provider now limit cap s, ?_⟩
  intro r hr m' hm' hideq
  rw [tick_messages, he] at hm'
  rw [List.mem_map] at hm'
  obtain ⟨m0, hm0, rfl⟩ := hm'
  exact hstat r hr m0 ((hF m0).1.symm.trans hideq)

/-- C4 counterexample: with a storage fault at the daily-cap count query of
message 1 (part of its eligibility evaluation), the tick aborts — the
exception propagates and message 3, although queued and fully eligible
(consented contact, cap not reached: the fault-free run sends both), is not
processed in that tick, contradicting the claim that a failure at any
per-message step does not abort the processing of subsequent messages. -/
theorem tick_isolation_counterexample :
    (process_queue_tickF faultCap1 providerOk 20 5 3 stateB).err = some dbError ∧
    (process_queue_tickF faultCap1 providerOk 20 5 3 stateB).state.messages =
      [msgQ1, msgQ3] ∧
    msgQ3.status = .queued ∧ contactA.consented = true ∧
    contactA.opted_out = false ∧
    (process_queue_tickF noFaults providerOk 20 5 3 stateB).state.messages =
      [sentMark "ATXid_1" 20 (sendingMark msgQ1),
       sentMark "ATXid_1" 20 (sendingMark msgQ3)] := by
  decide

/-- C5: campaign completion.  After a fault-free tick, the campaigns table
equals the original table with `completed_at` set to the tick's timestamp
exactly on those campaigns that were started, not yet completed, and have
no remaining `queued`/`sending` message in the post-tick message table;
campaigns already completed, or not yet started, come back unchanged; and
neither activation nor campaign creation ever changes an existing
campaign's completion time. -/
theorem campaign_completion (provider : String → String → Except String String)
    (now limit cap : Nat) (baseUrl : String) (cid2 now2 : Nat)
    (nm tpl tg : String) (now3 : Nat) (s : State)
    (hndc : (s.campaigns.map Campaign.id).Nodup)
    (hfreshc : ∀ c ∈ s.campaigns, c.id < s.nextCampaignId) :
    ((process_queue_tick provider now limit cap s).state.campaigns =
      s.campaigns.map fun c =>
        if c.started_at ≠ none ∧ c.completed_at = none ∧
            countQueuedSending
              (process_queue_tick provider now limit cap s).state.messages c.id = 0
        then { c with completed_at := some now } else c) ∧
    (∀ c ∈ s.campaigns, c.completed_at ≠ none →
      ∀ c' ∈ (process_queue_tick provider now limit cap s).state.campaigns,
        c'.id = c.id → c' = c) ∧
    (∀ c ∈ s.campaigns, c.started_at = none →
      ∀ c' ∈ (process_queue_tick provider now limit cap s).state.campaigns,
        c'.id = c.id → c' = c) ∧
    (∀ c ∈ s.campaigns, ∀ c' ∈ (campaigns_start baseUrl s cid2 now2).1.campaigns,
      c'.id = c.id → c'.completed_at = c.completed_at) ∧
    (∀ c ∈ s.campaigns, ∀ c' ∈ (campaigns_create s nm tpl tg now3).1.campaigns,
      c'.id = c.id → c' = c) := by
  refine ⟨?_, ?_, ?_, ?_, ?_⟩
  · rw [tick_campaigns, tick_messages]
    rfl
  · intro c hc hcomp c' hc' hideq
    rw [tick_campaigns] at hc'
    unfold completionScan at hc'
    rw [List.mem_map] at hc'
    obtain ⟨c0, hc0, rfl⟩ := hc'
    have hid0 : c0.id = c.id := by
      revert hideq
      split <;> exact fun h => h
    have hc0eq : c0 = c := camp_id_inj hndc hc0 hc hid0
    subst hc0eq
    rw [if_neg fun hcond => hcomp hcond.2.1]
  · intro c hc hstart c' hc' hideq
    rw [tick_campaigns] at hc'
    unfold completionScan at hc'
    rw [List.mem_map] at hc'
    obtain ⟨c0, hc0, rfl⟩ := hc'
    have hid0 : c0.id = c.id := by
      revert hideq
      split <;> exact fun h => h
    have hc0eq : c0 = c := camp_id_inj hndc hc0 hc hid0
    subst hc0eq
    rw [if_neg fun hcond => hcond.1 hstart]
  · intro c hc c' hc' hideq
    cases hf : s.campaigns.find? (fun c => c.id == cid2) with
    | none =>
      unfold campaigns_start at hc'
      rw [hf] at hc'
      rw [camp_id_inj hndc hc' hc hideq]
    | some camp =>
      rw [campaigns_start_found baseUrl s cid2 now2 camp hf] at hc'
      simp only [List.mem_map] at hc'
      obtain ⟨c0, hc0, rfl⟩ := hc'
      have hid0 : c0.id = c.id := by
        revert hideq
        split <;> exact fun h => h
      have hc0eq : c0 = c := camp_id_inj hndc hc0 hc hid0
      subst hc0eq
      split <;> rfl
  · intro c hc c' hc' hideq
    unfold campaigns_create at hc'
    simp only [List.mem_append, List.mem_singleton] at hc'
    rcases hc' with hc' | hc'
    · exact camp_id_inj hndc hc' hc hideq
    · have := hfreshc c hc
      rw [hc'] at hideq
      simp only at hideq
      omega

/-- C7: activation atomicity.  Activating a nonexistent campaign id returns
the not-found error with the store untouched; activating an existing
campaign reports the recipient count, overwrites that campaign's
`started_at` with the current timestamp unconditionally, and appends
exactly one `queued` message per selected recipient. -/
theorem activation_atomic (baseUrl : String) (s : State) (cid now : Nat)
    (hndc : (s.campaigns.map Campaign.id).Nodup) :
    ((∀ c ∈ s.campaigns, c.id ≠ cid) →
      campaigns_start baseUrl s cid now = (s, .error "Campaign not found")) ∧
    (∀ camp ∈ s.campaigns, camp.id = cid →
      (campaigns_start baseUrl s cid now).2 =
        .ok (selectRecipients s camp).length ∧
      (∀ c' ∈ (campaigns_start baseUrl s cid now).1.campaigns,
        c'.id = cid → c'.started_at = some now) ∧
      (campaigns_start baseUrl s cid now).1.messages =
        s.messages ++ enqueueAll cid camp.message_template baseUrl now
          (selectRecipients s camp) s.nextMsgId ∧
      (∀ m' ∈ enqueueAll cid camp.message_template baseUrl now
          (selectRecipients s camp) s.nextMsgId,
        m'.status = .queued ∧ m'.campaign_id = cid) ∧
      (enqueueAll cid camp.message_template baseUrl now
        (selectRecipients s camp) s.nextMsgId).length =
        (selectRecipients s camp).length) := by
  constructor
  · exact campaigns_start_not_found baseUrl s cid now
  · intro camp hmem hid
    have hfind := find_campaign hndc hmem hid
    rw [campaigns_start_found baseUrl s cid now camp hfind]
    refine ⟨rfl, ?_, rfl, ?_, ?_⟩
    · intro c' hc' hideq
      simp only [List.mem_map] at hc'
      obtain ⟨c0, hc0, rfl⟩ := hc'
      by_cases h0 : c0.id = cid
      · rw [if_pos h0]
      · rw [if_neg h0] at hideq ⊢
        exact absurd hideq h0
    · intro m' hm'
      obtain ⟨_, hq, hcid, _⟩ := enqueueAll_mem cid camp.message_template baseUrl
        now (selectRecipients s camp) s.nextMsgId m' hm'
      exact ⟨hq, hcid⟩
    · exact enqueueAll_length cid camp.message_template baseUrl now
        (selectRecipients s camp) s.nextMsgId

theorem consent_gate_witness :
    (stateA.messages.map Message.id).Nodup ∧
    ((∀ m ∈ stateA.messages, m.status = .queued →
      ∀ m' ∈ (process_queue_tick providerOk 20 5 3 stateA).state.messages,
        m'.id = m.id → m'.status = .sent →
        ∃ c, lookupContact stateA.contacts m.contact_id = some c ∧
          c.consented = true ∧ c.opted_out = false) ∧
    (∀ r ∈ selectBatch stateA 5, (r.consented = false ∨ r.opted_out = true) →
      (∀ m' ∈ (process_queue_tick providerOk 20 5 3 stateA).state.messages,
        m'.id = r.msg.id →
        m'.status = .skipped ∧ m'.error = some "no consent or opted out") ∧
      (∀ c ∈ (process_queue_tick providerOk 20 5 3 stateA).calls,
        c.1 ≠ r.msg.id))) :=
  ⟨by decide, consent_gate providerOk 20 5 3 stateA (by decide)⟩

theorem daily_cap_witness :
    ((stateB.messages.map Message.id).Nodup ∧ CapOk 3 stateB.messages) ∧
    (CapOk 3 (process_queue_tickF noFaults providerOk 20 5 3 stateB).state.messages ∧
     ∀ (r : SelRow) (msgs : List Message), r.consented = true → r.opted_out = false →
       3 ≤ count_sent_today msgs r.msg.contact_id 20 →
       processOne noFaults providerOk 20 3 r msgs =
         ⟨updMsg msgs r.msg.id (skipMark "daily cap reached"), [], none⟩) := by
  have hcap : CapOk 3 stateB.messages := by
    intro cid d
    simp [CapOk, countSentOnDay, sentOnDayPred, stateB, msgQ1, msgQ3]
  exact ⟨⟨by decide, hcap⟩, daily_cap noFaults providerOk 20 5 3 stateB (by decide) hcap⟩

theorem batch_bound_witness :
    (stateB.messages.map Message.id).Nodup ∧
    ((selectBatch stateB 1).length ≤ 1 ∧
     (selectBatch stateB 1).Pairwise createdLe ∧
     (∀ r ∈ selectBatch stateB 1, r.msg ∈ stateB.messages ∧ r.msg.status = .queued) ∧
     (stateB.messages.zip
        (process_queue_tickF noFaults providerOk 20 1 3 stateB).state.messages).countP
       (fun p => decide (p.1.status = .queued) && decide (p.2.status ≠ .queued)) ≤ 1) :=
  ⟨by decide, batch_bound noFaults providerOk 20 1 3 stateB (by decide)⟩

theorem tick_isolation_witness :
    (stateB.messages.map Message.id).Nodup ∧
    ((process_queue_tick providerFail 20 5 3 stateB).err = none ∧
     ∀ r ∈ selectBatch stateB 5,
       ∀ m' ∈ (process_queue_tick providerFail 20 5 3 stateB).state.messages,
         m'.id = r.msg.id →
         m'.status = .skipped ∨ m'.status = .sent ∨ m'.status = .failed) :=
  ⟨by decide, tick_isolation providerFail 20 5 3 stateB (by decide)⟩

theorem campaign_completion_witness :
    ((stateA.campaigns.map Campaign.id).Nodup ∧
     (∀ c ∈ stateA.campaigns, c.id < stateA.nextCampaignId)) ∧
    (((process_queue_tick providerOk 20 5 3 stateA).state.campaigns =
      stateA.campaigns.map fun c =>
        if c.started_at ≠ none ∧ c.completed_at = none ∧
            countQueuedSending
              (process_queue_tick providerOk 20 5 3 stateA).state.messages c.id = 0
        then { c with completed_at := some 20 } else c) ∧
    (∀ c ∈ stateA.campaigns, c.completed_at ≠ none →
      ∀ c' ∈ (process_queue_tick providerOk 20 5 3 stateA).state.campaigns,
        c'.id = c.id → c' = c) ∧
    (∀ c ∈ stateA.campaigns, c.started_at = none →
      ∀ c' ∈ (process_queue_tick providerOk 20 5 3 stateA).state.campaigns,
        c'.id = c.id → c' = c) ∧
    (∀ c ∈ stateA.campaigns,
      ∀ c' ∈ (campaigns_start "http://h/u" stateA 1 21).1.campaigns,
        c'.id = c.id → c'.completed_at = c.completed_at) ∧
    (∀ c ∈ stateA.campaigns,
      ∀ c' ∈ (campaigns_create stateA "n" "t" "" 22).1.campaigns,
        c'.id = c.id → c' = c)) :=
  ⟨⟨by decide, by decide⟩,
   campaign_completion providerOk 20 5 3 "http://h/u" 1 21 "n" "t" "" 22 stateA
     (by decide) (by decide)⟩

theorem activation_atomic_witness :
    (stateVip.campaigns.map Campaign.id).Nodup ∧
    (((∀ c ∈ stateVip.campaigns, c.id ≠ 1) →
      campaigns_start "http://h/u" stateVip 1 30 =
        (stateVip, .error "Campaign not found")) ∧
    (∀ camp ∈ stateVip.campaigns, camp.id = 1 →
      (campaigns_start "http://h/u" stateVip 1 30).2 =
        .ok (selectRecipients stateVip camp).length ∧
      (∀ c' ∈ (campaigns_start "http://h/u" stateVip 1 30).1.campaigns,
        c'.id = 1 → c'.started_at = some 30) ∧
      (campaigns_start "http://h/u" stateVip 1 30).1.messages =
        stateVip.messages ++ enqueueAll 1 camp.message_template "http://h/u" 30
          (selectRecipients stateVip camp) stateVip.nextMsgId ∧
      (∀ m' ∈ enqueueAll 1 camp.message_template "http://h/u" 30
          (selectRecipients stateVip camp) stateVip.nextMsgId,
        m'.status = .queued ∧ m'.campaign_id = 1) ∧
      (enqueueAll 1 camp.message_template "http://h/u" 30
        (selectRecipients stateVip camp) stateVip.nextMsgId).length =
        (selectRecipients stateVip camp).length)) :=
  ⟨by decide, activation_atomic "http://h/u" stateVip 1 30 (by decide)⟩

theorem provider_outcome_witness :
    ((stateC.messages.map Message.id).Nodup ∧ (∀ m ∈ stateC.messages, MsgInv m)) ∧
    ((∀ m' ∈ (process_queue_tickF noFaults providerFail 20 5 3 stateC).state.messages,
      MsgInv m') ∧
    (∀ m' ∈ (campaigns_start "http://h/u" stateC 1 21).1.messages, MsgInv m') ∧
    (∀ (r : SelRow) (msgs : List Message) (e : String),
      r.consented = true → r.opted_out = false →
      count_sent_today msgs r.msg.contact_id 20 < 3 →
      providerFail r.msg.to_phone r.msg.body = .error e →
      processOne noFaults providerFail 20 3 r msgs =
        ⟨updMsg (updMsg msgs r.msg.id sendingMark) r.msg.id (failMark e),
         [(r.msg.id, r.msg.to_phone, r.msg.body)], none⟩) ∧
    (∀ (r : SelRow) (msgs : List Message) (pid : String),
      r.consented = true → r.opted_out = false →
      count_sent_today msgs r.msg.contact_id 20 < 3 →
      providerFail r.msg.to_phone r.msg.body = .ok pid →
      processOne noFaults providerFail 20 3 r msgs =
        ⟨updMsg (updMsg msgs r.msg.id sendingMark) r.msg.id (sentMark pid 20),
         [(r.msg.id, r.msg.to_phone, r.msg.body)], none⟩) ∧
    (∀ m ∈ stateC.messages, m.status = .failed →
      ∀ m' ∈ (process_queue_tickF noFaults providerFail 20 5 3 stateC).state.messages,
        m'.id = m.id → m' = m)) := by
  have hinv : ∀ m ∈ stateC.messages, MsgInv m := by
    intro m hm
    simp only [stateC, List.mem_cons, List.not_mem_nil, or_false] at hm
    rcases hm with rfl | rfl | rfl | rfl | rfl
    · exact ⟨rfl, rfl, rfl⟩
    · exact ⟨rfl, rfl, rfl⟩
    · exact ⟨rfl, rfl⟩
    · exact ⟨rfl, rfl⟩
    · exact ⟨rfl, rfl, rfl⟩
  exact ⟨⟨by decide, hinv⟩,
    provider_outcome noFaults providerFail 20 5 3 "http://h/u" 1 21 stateC
      (by decide) hinv⟩

theorem terminal_exclusivity_witness :
    ((stateC.messages.map Message.id).Nodup ∧
     (∀ m ∈ stateC.messages, m.id < stateC.nextMsgId)) ∧
    (∀ m ∈ stateC.messages,
      (m.status = .sent ∨ m.status = .failed ∨ m.status = .skipped) →
      (∀ m' ∈ (process_queue_tickF noFaults providerOk 20 5 3 stateC).state.messages,
        m'.id = m.id → m' = m) ∧
      (∀ m' ∈ (campaigns_start "http://h/u" stateC 1 21).1.messages,
        m'.id = m.id → m' = m)) :=
  ⟨⟨by decide, by decide⟩,
   terminal_exclusivity noFaults providerOk 20 5 3 "http://h/u" 1 21 stateC
     (by decide) (by decide)⟩

theorem sending_stuck_witness :
    ((stateC.messages.map Message.id).Nodup ∧
     (∀ m ∈ stateC.messages, m.id < stateC.nextMsgId)) ∧
    ((∀ r ∈ selectBatch stateC 5, r.msg.status = .queued) ∧
    (∀ m ∈ stateC.messages, m.status = .sending →
      (∀ m' ∈ (process_queue_tickF noFaults providerOk 20 5 3 stateC).state.messages,
        m'.id = m.id → m' = m) ∧
      (∀ m' ∈ (campaigns_start "http://h/u" stateC 1 21).1.messages,
        m'.id = m.id → m' = m))) :=
  ⟨⟨by decide, by decide⟩,
   sending_stuck noFaults providerOk 20 5 3 "http://h/u" 1 21 stateC
     (by decide) (by decide)⟩

theorem toNat_ofNat_valid (n : Nat) (h : n.isValidChar) :
    (Char.ofNat n).toNat = n := by
  unfold Char.ofNat
  rw [dif_pos h]
  rfl

theorem toLower_def (c : Char) :
    Char.toLower c =
      if c.toNat ≥ 65 ∧ c.toNat ≤ 90 then Char.ofNat (c.toNat + 32) else c := rfl

theorem toLower_range (c : Char) :
    Char.toLower c = c ∨
      (97 ≤ (Char.toLower c).toNat ∧ (Char.toLower c).toNat ≤ 122) := by
  rw [toLower_def]
  split
  · rename_i h
    right
    rw [toNat_ofNat_valid (c.toNat + 32) (Or.inl (by omega))]
    omega
  · left
    rfl

theorem toLower_idem (c : Char) :
    (Char.toLower c).toLower = Char.toLower c := by
  rcases toLower_range c with h | h
  · simp only [h]
  · rw [toLower_def (Char.toLower c), if_neg (by omega)]

theorem toLower_eq_self (t : Char) (ht : t.toNat < 65 ∨ 90 < t.toNat) :
    Char.toLower t = t := by
  rw [toLower_def, if_neg (by omega)]

theorem eq_of_toLower_eq (c t : Char) (ht : t.toNat < 97 ∨ 122 < t.toNat)
    (h : Char.toLower c = t) : c = t := by
  rcases toLower_range c with h' | h'
  · rw [← h', h]
  · rw [h] at h'
    omega

theorem mem_of_mem_lowerChars {t : Char} {l : List Char}
    (ht2 : t.toNat < 97 ∨ 122 < t.toNat)
    (h : t ∈ lowerChars l) : t ∈ l := by
  unfold lowerChars at h
  rw [List.mem_map] at h
  obtain ⟨c, hc, hct⟩ := h
  rw [← eq_of_toLower_eq c t ht2 hct]
  exact hc

theorem not_mem_lowerChars {t : Char} {l : List Char}
    (ht2 : t.toNat < 97 ∨ 122 < t.toNat)
    (h : t ∉ l) : t ∉ lowerChars l :=
  fun hmem => h (mem_of_mem_lowerChars ht2 hmem)

theorem lowerChars_append (a b : List Char) :
    lowerChars (a ++ b) = lowerChars a ++ lowerChars b :=
  List.map_append _ a b

theorem lowerChars_idem (l : List Char) :
    lowerChars (lowerChars l) = lowerChars l := by
  unfold lowerChars
  rw [List.map_map]
  exact List.map_congr_left fun c _ => toLower_idem c

theorem lowerChars_comma_cons (l : List Char) :
    lowerChars (',' :: l) = ',' :: lowerChars l := by
  unfold lowerChars
  rw [List.map_cons, toLower_eq_self ',' (by decide)]

theorem splitOnCommaL_ne_nil : ∀ l : List Char, splitOnCommaL l ≠ [] := by
  intro l
  cases l with
  | nil => simp [splitOnCommaL]
  | cons c rest =>
    unfold splitOnCommaL
    by_cases hc : c = ','
    · simp [hc]
    · rw [if_neg hc]
      cases h : splitOnCommaL rest with
      | nil => simp
      | cons t ts => simp

theorem splitOnCommaL_lowerChars (l : List Char) :
    splitOnCommaL (lowerChars l) = (splitOnCommaL l).map lowerChars := by
  induction l with
  | nil => rfl
  | cons c rest ih =>
    by_cases hc : c = ','
    · subst hc
      rw [lowerChars_comma_cons]
      unfold splitOnCommaL
      rw [if_pos rfl, if_pos rfl, ih]
      rfl
    · have hc' : Char.toLower c ≠ ',' := fun h =>
        hc (eq_of_toLower_eq c ',' (by decide) h)
      have hlc : lowerChars (c :: rest) = Char.toLower c :: lowerChars rest := rfl
      rw [hlc]
      unfold splitOnCommaL
      rw [if_neg hc', if_neg hc, ih]
      cases h : splitOnCommaL rest with
      | nil => exact absurd h (splitOnCommaL_ne_nil rest)
      | cons t ts => rfl


theorem likeMatch_cons_eq (p : Char) (ps s : List Char) :
    likeMatch (p :: ps) s =
      if p = '%' then
        (List.range (s.length + 1)).any fun n => likeMatch ps (s.drop n)
      else if p = '_' then
        match s with
        | [] => false
        | _ :: s' => likeMatch ps s'
      else
        match s with
        | [] => false
        | c :: s' => (p.toLower == c.toLower) && likeMatch ps s' := by
  cases s <;> rfl

theorem likeMatch_pct (ps s : List Char) :
    likeMatch ('%' :: ps) s = true ↔ ∃ n, likeMatch ps (s.drop n) = true := by
  rw [likeMatch_cons_eq, if_pos rfl, List.any_eq_true]
  constructor
  · intro ⟨n, _, h⟩
    exact ⟨n, h⟩
  · intro ⟨n, h⟩
    by_cases hn : n ≤ s.length
    · exact ⟨n, List.mem_range.2 (by omega), h⟩
    · refine ⟨s.length, List.mem_range.2 (by omega), ?_⟩
      rw [List.drop_length]
      rwa [List.drop_eq_nil_of_le (by omega)] at h

theorem likeMatch_lit (lit : List Char) (hno : ∀ p ∈ lit, p ≠ '%' ∧ p ≠ '_') :
    ∀ s, likeMatch (lit ++ ['%']) s = litLead lit s := by
  induction lit with
  | nil =>
    intro s
    rw [List.nil_append]
    have h : likeMatch ['%'] s = true := by
      rw [likeMatch_cons_eq, if_pos rfl, List.any_eq_true]
      refine ⟨s.length, List.mem_range.2 (by omega), ?_⟩
      rw [List.drop_length]
      rfl
    rw [h]
    rfl
  | cons p lit' ih =>
    intro s
    obtain ⟨hp1, hp2⟩ := hno p (List.mem_cons_self p lit')
    have ih' := ih fun q hq => hno q (List.mem_cons_of_mem p hq)
    rw [List.cons_append, likeMatch_cons_eq, if_neg hp1, if_neg hp2]
    cases s with
    | nil => rfl
    | cons c s' =>
      show ((p.toLower == c.toLower) && likeMatch (lit' ++ ['%']) s') =
        litLead (p :: lit') (c :: s')
      rw [ih' s']
      rfl

theorem litLead_iff (lit : List Char) :
    ∀ s, litLead lit s = true ↔ lowerChars lit <+: lowerChars s := by
  induction lit with
  | nil =>
    intro s
    constructor
    · intro _
      exact List.nil_prefix
    · intro _
      rfl
  | cons p ps ih =>
    intro s
    cases s with
    | nil =>
      constructor
      · intro h
        exact absurd h (by simp [litLead])
      · intro h
        obtain ⟨t, ht⟩ := h
        exact absurd ht (by simp [lowerChars])
    | cons c s' =>
      have heq : litLead (p :: ps) (c :: s') =
          ((p.toLower == c.toLower) && litLead ps s') := rfl
      rw [heq, Bool.and_eq_true, beq_iff_eq]
      have hl1 : lowerChars (p :: ps) = p.toLower :: lowerChars ps := rfl
      have hl2 : lowerChars (c :: s') = c.toLower :: lowerChars s' := rfl
      rw [hl1, hl2, List.cons_prefix_cons]
      exact and_congr Iff.rfl (ih s')

theorem exists_drop_iff (t s : List Char) :
    (∃ n, t <+: s.drop n) ↔ ∃ u v, s = u ++ t ++ v := by
  constructor
  · intro ⟨n, w, hw⟩
    refine ⟨s.take n, w, ?_⟩
    rw [List.append_assoc, hw, List.take_append_drop]
  · intro ⟨u, v, h⟩
    refine ⟨u.length, v, ?_⟩
    rw [h, List.append_assoc, List.drop_left]

theorem splitOnCommaL_comma (rest : List Char) :
    splitOnCommaL (',' :: rest) = [] :: splitOnCommaL rest := by
  simp [splitOnCommaL]

theorem splitOnCommaL_cons_ne (c : Char) (rest : List Char) (hc : c ≠ ',') :
    splitOnCommaL (c :: rest) =
      match splitOnCommaL rest with
      | t :: ts => (c :: t) :: ts
      | [] => [[c]] := by
  simp [splitOnCommaL, hc]

theorem split_no_comma {A : List Char} (h : ',' ∉ A) :
    splitOnCommaL A = [A] := by
  induction A with
  | nil => rfl
  | cons a A' ih =>
    have ha : a ≠ ',' := fun he => h (he ▸ List.mem_cons_self a A')
    have ih' := ih fun hm => h (List.mem_cons_of_mem a hm)
    rw [splitOnCommaL_cons_ne a A' ha, ih']

theorem splitOnCommaL_append (A B : List Char) :
    splitOnCommaL (A ++ ',' :: B) = splitOnCommaL A ++ splitOnCommaL B := by
  induction A with
  | nil =>
    rw [List.nil_append, splitOnCommaL_comma]
    rfl
  | cons a A' ih =>
    by_cases ha : a = ','
    · subst ha
      rw [List.cons_append, splitOnCommaL_comma, splitOnCommaL_comma, ih]
      rfl
    · rw [List.cons_append, splitOnCommaL_cons_ne a _ ha,
        splitOnCommaL_cons_ne a A' ha, ih]
      cases h : splitOnCommaL A' with
      | nil => exact absurd h (splitOnCommaL_ne_nil A')
      | cons t ts => rfl

theorem comma_append_cases (X : List Char) :
    ∀ (Y v : List Char), Y ++ [','] = X ++ ',' :: v →
      (X = Y ∧ v = []) ∨ ∃ B, Y = X ++ ',' :: B ∧ v = B ++ [','] := by
  induction X with
  | nil =>
    intro Y v h
    rw [List.nil_append] at h
    cases Y with
    | nil =>
      rw [List.nil_append] at h
      injection h with _ h2
      exact Or.inl ⟨rfl, h2.symm⟩
    | cons y Y' =>
      rw [List.cons_append] at h
      injection h with h1 h2
      refine Or.inr ⟨Y', ?_, h2.symm⟩
      rw [List.nil_append, h1]
  | cons x X' ih =>
    intro Y v h
    cases Y with
    | nil =>
      rw [List.nil_append, List.cons_append] at h
      injection h with h1 h2
      exact absurd h2.symm (by simp)
    | cons y Y' =>
      rw [List.cons_append, List.cons_append] at h
      injection h with h1 h2
      rcases ih Y' v h2 with ⟨hA, hv⟩ | ⟨B, hB, hv⟩
      · refine Or.inl ⟨?_, hv⟩
        rw [h1, hA]
      · refine Or.inr ⟨B, ?_, hv⟩
        rw [List.cons_append, h1, hB]

theorem occurrence_head {X Y v : List Char} (hX : ',' ∉ X)
    (h : Y ++ [','] = X ++ ',' :: v) : X ∈ splitOnCommaL Y := by
  rcases comma_append_cases X Y v h with ⟨hXY, _⟩ | ⟨B, hYB, _⟩
  · rw [← hXY, split_no_comma hX]
    exact List.mem_singleton.2 rfl
  · rw [hYB, splitOnCommaL_append, split_no_comma hX]
    exact List.mem_append_left _ (List.mem_singleton.2 rfl)

theorem occurrence_inside (X : List Char) (hX : ',' ∉ X) :
    ∀ (u' Y v : List Char),
      Y ++ [','] = u' ++ (',' :: (X ++ (',' :: v))) →
      ∃ A B, Y = A ++ ',' :: B ∧ X ∈ splitOnCommaL B := by
  intro u'
  induction u' with
  | nil =>
    intro Y v h
    rw [List.nil_append] at h
    cases Y with
    | nil =>
      rw [List.nil_append] at h
      injection h with _ h2
      have := congrArg List.length h2
      simp [List.length_append] at this
      omega
    | cons y Y' =>
      simp only [List.cons_append] at h
      injection h with h1 h2
      refine ⟨[], Y', ?_, occurrence_head hX h2⟩
      rw [List.nil_append, h1]
  | cons a u'' ih =>
    intro Y v h
    cases Y with
    | nil =>
      rw [List.nil_append] at h
      have := congrArg List.length h
      simp [List.length_append] at this
    | cons y Y' =>
      simp only [List.cons_append] at h
      injection h with h1 h2
      obtain ⟨A, B, hAB, hm⟩ := ih Y' v h2
      refine ⟨y :: A, B, ?_, hm⟩
      rw [List.cons_append, hAB]

theorem first_comma {Y : List Char} (h : ',' ∈ Y) :
    ∃ A B, Y = A ++ ',' :: B ∧ ',' ∉ A := by
  induction Y with
  | nil => cases h
  | cons y Y' ih =>
    by_cases hy : y = ','
    · refine ⟨[], Y', ?_, by simp⟩
      rw [List.nil_append, hy]
    · have h' : ',' ∈ Y' := by
        rcases List.mem_cons.1 h with hc | hc
        · exact absurd hc.symm hy
        · exact hc
      obtain ⟨A, B, hAB, hA⟩ := ih h'
      refine ⟨y :: A, B, ?_, ?_⟩
      · rw [List.cons_append, hAB]
      · intro hm
        rcases List.mem_cons.1 hm with hc | hc
        · exact hy hc.symm
        · exact hA hc

theorem token_occurrence (X : List Char) (hX : ',' ∉ X) :
    ∀ (fuel : Nat) (Y : List Char), Y.length ≤ fuel →
      X ∈ splitOnCommaL Y →
      ∃ u v, ',' :: (Y ++ [',']) = u ++ (',' :: (X ++ (',' :: v))) := by
  intro fuel
  induction fuel with
  | zero =>
    intro Y hlen hmem
    have hY : Y = [] := List.length_eq_zero.1 (Nat.le_zero.1 hlen)
    subst hY
    have hXnil : X = [] := by
      have : splitOnCommaL ([] : List Char) = [[]] := rfl
      rw [this] at hmem
      exact List.mem_singleton.1 hmem
    subst hXnil
    exact ⟨[], [], rfl⟩
  | succ n ih =>
    intro Y hlen hmem
    by_cases hcY : ',' ∈ Y
    · obtain ⟨A, B, hAB, hA⟩ := first_comma hcY
      subst hAB
      rw [splitOnCommaL_append, split_no_comma hA, List.mem_append] at hmem
      rcases hmem with hm | hm
      · have hXA : X = A := List.mem_singleton.1 hm
        subst hXA
        refine ⟨[], B ++ [','], ?_⟩
        simp [List.append_assoc]
      · have hBlen : B.length ≤ n := by
          have := congrArg List.length (rfl : A ++ ',' :: B = A ++ ',' :: B)
          have hl : (A ++ ',' :: B).length = A.length + B.length + 1 := by
            simp [List.length_append]
            omega
          rw [hl] at hlen
          omega
        obtain ⟨u', v', hocc⟩ := ih B hBlen hm
        refine ⟨',' :: A ++ u', v', ?_⟩
        have hL : ',' :: (A ++ ',' :: B ++ [',']) =
            ',' :: A ++ (',' :: (B ++ [','])) := by
          simp [List.append_assoc]
        rw [hL, hocc]
        simp [List.append_assoc]
    · rw [split_no_comma hcY] at hmem
      have hXY : X = Y := List.mem_singleton.1 hmem
      subst hXY
      exact ⟨[], [], rfl⟩

theorem occurrence_iff_token (X Y : List Char) (hX : ',' ∉ X) :
    (∃ u v, ',' :: (Y ++ [',']) = u ++ (',' :: (X ++ (',' :: v)))) ↔
      X ∈ splitOnCommaL Y := by
  constructor
  · intro ⟨u, v, h⟩
    cases u with
    | nil =>
      rw [List.nil_append] at h
      injection h with _ h2
      exact occurrence_head hX h2
    | cons a u' =>
      simp only [List.cons_append] at h
      injection h with h1 h2
      obtain ⟨A, B, hAB, hm⟩ := occurrence_inside X hX u' Y v h2
      rw [hAB, splitOnCommaL_append]
      exact List.mem_append_right _ hm
  · intro hmem
    exact token_occurrence X hX Y.length Y (Nat.le_refl _) hmem

theorem occ_shift (X S : List Char) :
    (∃ u v, S = u ++ (',' :: (X ++ [','])) ++ v) ↔
      (∃ u v, S = u ++ (',' :: (X ++ (',' :: v)))) := by
  constructor
  · intro ⟨u, v, h⟩
    refine ⟨u, v, ?_⟩
    rw [h]
    simp [List.append_assoc]
  · intro ⟨u, v, h⟩
    refine ⟨u, v, ?_⟩
    rw [h]
    simp [List.append_assoc]

theorem lowerChars_drop (l : List Char) (n : Nat) :
    lowerChars (l.drop n) = (lowerChars l).drop n :=
  List.map_drop Char.toLower l n

theorem tagMatches_eq_tokenMatchSpec (tag tags : String)
    (hc : ',' ∉ tag.data) (hp : '%' ∉ tag.data) (hu : '_' ∉ tag.data) :
    tagMatches tag tags = tokenMatchSpec tag tags := by
  have hcX : ',' ∉ lowerChars tag.data :=
    not_mem_lowerChars (by decide) hc
  have hpX : '%' ∉ lowerChars tag.data :=
    not_mem_lowerChars (by decide) hp
  have huX : '_' ∉ lowerChars tag.data :=
    not_mem_lowerChars (by decide) hu
  set X := lowerChars tag.data with hXdef
  set Y := lowerChars tags.data with hYdef
  have hpat : ',' :: (X ++ [',', '%']) = (',' :: (X ++ [','])) ++ ['%'] := by
    simp [List.append_assoc]
  have hno : ∀ p ∈ ',' :: (X ++ [',']), p ≠ '%' ∧ p ≠ '_' := by
    intro p hp'
    rcases List.mem_cons.1 hp' with rfl | hp'
    · exact ⟨by decide, by decide⟩
    · rcases List.mem_append.1 hp' with hp' | hp'
      · exact ⟨fun h => hpX (h ▸ hp'), fun h => huX (h ▸ hp')⟩
      · rw [List.mem_singleton.1 hp']
        exact ⟨by decide, by decide⟩
  have hLlit : lowerChars (',' :: (X ++ [','])) = ',' :: (X ++ [',']) := by
    rw [lowerChars_comma_cons, lowerChars_append, hXdef, lowerChars_idem]
    rfl
  have hLS : lowerChars (',' :: (Y ++ [','])) = ',' :: (Y ++ [',']) := by
    rw [lowerChars_comma_cons, lowerChars_append, hYdef, lowerChars_idem]
    rfl
  rw [Bool.eq_iff_iff]
  unfold tagMatches
  rw [hpat]
  rw [likeMatch_pct]
  constructor
  · intro ⟨n, hn⟩
    rw [likeMatch_lit _ hno, litLead_iff, hLlit, lowerChars_drop, hLS] at hn
    have hocc : ∃ u v, ',' :: (Y ++ [',']) = u ++ (',' :: (X ++ [','])) ++ v :=
      (exists_drop_iff _ _).1 ⟨n, hn⟩
    have htok : X ∈ splitOnCommaL Y :=
      (occurrence_iff_token X Y hcX).1 ((occ_shift _ _).1 hocc)
    rw [hYdef, splitOnCommaL_lowerChars, List.mem_map] at htok
    obtain ⟨t, ht, hteq⟩ := htok
    unfold tokenMatchSpec
    rw [List.any_eq_true]
    refine ⟨t, ht, ?_⟩
    rw [beq_iff_eq, hteq]
  · intro htm
    unfold tokenMatchSpec at htm
    rw [List.any_eq_true] at htm
    obtain ⟨t, ht, hteq⟩ := htm
    rw [beq_iff_eq] at hteq
    have htok : X ∈ splitOnCommaL Y := by
      rw [hYdef, splitOnCommaL_lowerChars, List.mem_map]
      exact ⟨t, ht, hteq⟩
    have hocc := (occ_shift _ _).2 ((occurrence_iff_token X Y hcX).2 htok)
    obtain ⟨n, hn⟩ := (exists_drop_iff _ _).2 hocc
    refine ⟨n, ?_⟩
    rw [likeMatch_lit _ hno, litLead_iff, hLlit, lowerChars_drop, hLS]
    exact hn

/-- C6 (amended): activation recipient selection.  With an empty (trimmed)
target tag the recipients are exactly the consented, non-opted-out
contacts.  With a non-empty target tag containing no comma and no SQL LIKE
wildcard (`%`, `_`), the recipients are exactly the consented,
non-opted-out contacts whose comma-separated tag list contains the target
tag as an exact, case-insensitive token match.  (For target tags containing
a comma or a wildcard the code's LIKE filter diverges from token matching —
see the counterexample.) -/
theorem activation_recipients (s : State) (camp : Campaign)
    (hc : ',' ∉ (strTrim camp.target_tag).data)
    (hp : '%' ∉ (strTrim camp.target_tag).data)
    (hu : '_' ∉ (strTrim camp.target_tag).data) :
    (strTrim camp.target_tag = "" →
      selectRecipients s camp =
        s.contacts.filter fun c => c.consented && !c.opted_out) ∧
    (strTrim camp.target_tag ≠ "" →
      selectRecipients s camp = s.contacts.filter fun c =>
        c.consented && !c.opted_out &&
          tokenMatchSpec (strTrim camp.target_tag) c.tags) := by
  constructor
  · intro h
    unfold selectRecipients
    rw [if_neg (by simp [h])]
  · intro h
    unfold selectRecipients
    rw [if_pos h]
    apply List.filter_congr
    intro c _
    rw [tagMatches_eq_tokenMatchSpec _ _ hc hp hu]

/-- C6 counterexample: with target tag `a,b` and a contact tagged `a,b`,
the comma-separated tag list has tokens `a` and `b`, so the target tag is
not a token match — yet activation's LIKE filter selects the contact.  The
recipients are therefore not exactly the token-matching contacts. -/
theorem activation_recipients_counterexample :
    tokenMatchSpec (strTrim campAB.target_tag) contactAB.tags = false ∧
    strTrim campAB.target_tag ≠ "" ∧
    contactAB.consented = true ∧ contactAB.opted_out = false ∧
    selectRecipients stateAB campAB = [contactAB] := by
  decide

theorem activation_recipients_witness :
    (',' ∉ (strTrim campVip.target_tag).data ∧
     '%' ∉ (strTrim campVip.target_tag).data ∧
     '_' ∉ (strTrim campVip.target_tag).data) ∧
    ((strTrim campVip.target_tag = "" →
      selectRecipients stateVip campVip =
        stateVip.contacts.filter fun c => c.consented && !c.opted_out) ∧
    (strTrim campVip.target_tag ≠ "" →
      selectRecipients stateVip campVip = stateVip.contacts.filter fun c =>
        c.consented && !c.opted_out &&
          tokenMatchSpec (strTrim campVip.target_tag) c.tags)) :=
  ⟨by decide, activation_recipients stateVip campVip (by decide) (by decide)
    (by decide)⟩
